import Mathlib

/-!
Verification of the BNObj CSV→XML synchronisation scripts
(`csv-to-xml.py`, the Selective Updater, and `csv-to-xml2.py`, the Full
Replacer).  The XML container is modelled as a list of children, each child
being either a BNObj record (an ordered list of named text fields) or some
other element; CSV rows are association lists from trimmed column name to
trimmed value, exactly as produced by the scripts' CSV loaders.  Python
dictionaries are modelled by association lists with first-match lookup and
update, and the record index (whose values are object references in Python)
is modelled by child positions in the container list.
-/

deriving instance DecidableEq for Except

set_option synthInstance.maxSize 4000
set_option maxRecDepth 8000

namespace CsvXml

/-- The whitespace characters `str.strip()` removes (ASCII range). -/
def py_space (c : Char) : Bool :=
  c == ' ' || c == '\t' || c == '\n' || c == '\r'
    || c == Char.ofNat 11 || c == Char.ofNat 12

/-- Python `str.strip()`: drop leading and trailing whitespace. -/
def strip (s : String) : String :=
  ⟨(((s.data.dropWhile py_space).reverse.dropWhile py_space).reverse)⟩

/-- A CSV row: mapping from trimmed column name to trimmed value
(`load_csv_rows` / `load_csv`). -/
abbrev Row := List (String × String)

/-- A BNObj record: its child elements in document order, as (tag, text). -/
abbrev Record := List (String × String)

/-- First-match association lookup (Python dict lookup / `Element.find`). -/
def assoc_get : List (String × String) → String → Option String
  | [], _ => none
  | (k', v) :: rest, k => if k' = k then some v else assoc_get rest k

/-- Python `r.get(key, "")` on a row dict. -/
def row_get (r : Row) (k : String) : String := (assoc_get r k).getD ""

/-- Python `r[key] = v` on a row dict: overwrite the existing entry or add one. -/
def row_set : Row → String → String → Row
  | [], k, v => [(k, v)]
  | (k', v') :: rest, k, v =>
      if k' = k then (k, v) :: rest else (k', v') :: row_set rest k v

/-- `b.findtext(tag, "")`: text of the first child with this tag, else `""`. -/
def findtext (b : Record) (tag : String) : String := (assoc_get b tag).getD ""

/-- `set_child_text(parent, tag, value)` (csv-to-xml.py lines 65–70): set the
text of the first child with this tag, creating (appending) it if absent. -/
def set_child_text : Record → String → String → Record
  | [], tag, v => [(tag, v)]
  | (t, x) :: rest, tag, v =>
      if t = tag then (tag, v) :: rest else (t, x) :: set_child_text rest tag v

/-- A child of the BNObj container `Node`: a BNObj record or any other element. -/
inductive Child where
  | bnobj (b : Record)
  | other (id : Nat)
deriving DecidableEq

/-- The BNObj container: its direct children in document order. -/
abbrev Node := List Child

def is_bnobj : Child → Bool
  | .bnobj _ => true
  | .other _ => false

/-- The two key modes of csv-to-xml.py (`'Name'` / `'VAddr+DBAddr'`). -/
inductive KeyMode where
  | name
  | vaddr_dbaddr
deriving DecidableEq

/-- A key: the tuple of key-field values (1-tuple or 2-tuple). -/
abbrev Key := List String

/-- Python `not any(key)`: every component of the tuple is the empty string. -/
def key_empty (k : Key) : Bool := k.all (fun s => s == "")

/-- `ALL_FIELDS` (csv-to-xml.py line 24). -/
def ALL_FIELDS : List String :=
  ["Name", "VAddr", "DBAddr", "DSize", "Float", "Signed", "Units", "Mask"]

/-- `get_row_key` (csv-to-xml.py lines 134–138): derive a row's key. -/
def get_row_key (mode : KeyMode) (r : Row) : Key :=
  match mode with
  | .name => [strip (row_get r "Name")]
  | .vaddr_dbaddr => [strip (row_get r "VAddr"), strip (row_get r "DBAddr")]

/-- The key a record derives from its own field values
(csv-to-xml.py lines 51–53). -/
def record_key (mode : KeyMode) (b : Record) : Key :=
  match mode with
  | .name => [strip (findtext b "Name")]
  | .vaddr_dbaddr => [strip (findtext b "VAddr"), strip (findtext b "DBAddr")]

/-- The indexing guard of `index_bnobjs` (lines 55–60): `if name:` resp.
`if vaddr or dbaddr:`. -/
def index_keep (mode : KeyMode) (b : Record) : Bool :=
  match mode with
  | .name => strip (findtext b "Name") != ""
  | .vaddr_dbaddr =>
      (strip (findtext b "VAddr") != "") || (strip (findtext b "DBAddr") != "")

/-- Index entries in insertion order: `(key, position of the record among the
container's children)`.  Python's dict is recovered by `dict_get`, which keeps
the last binding of a key. -/
def index_from (mode : KeyMode) : Nat → Node → List (Key × Nat)
  | _, [] => []
  | i, Child.bnobj b :: rest =>
      (if index_keep mode b then [(record_key mode b, i)] else [])
        ++ index_from mode (i + 1) rest
  | i, Child.other _ :: rest => index_from mode (i + 1) rest

/-- `index_bnobjs` (csv-to-xml.py lines 43–63). -/
def index_bnobjs (node : Node) (mode : KeyMode) : List (Key × Nat) :=
  index_from mode 0 node

/-- Python dict lookup on an insertion-ordered list of bindings: the latest
binding of the key wins. -/
def dict_get : List (Key × Nat) → Key → Option Nat
  | [], _ => none
  | (k', v) :: rest, k =>
      match dict_get rest k with
      | some v' => some v'
      | none => if k' = k then some v else none

/-- Position `j` of the container holds a record that the indexer keeps under
key `k`. -/
def kept_at (mode : KeyMode) (node : Node) (k : Key) (j : Nat) : Prop :=
  ∃ b, node.get? j = some (Child.bnobj b) ∧ record_key mode b = k ∧
    index_keep mode b = true

/-- The position, if any, that a row's key selects in an index: `none` for an
empty key or a key without a binding. -/
def matched_pos (I : List (Key × Nat)) (mode : KeyMode) (r : Row) :
    Option Nat :=
  if key_empty (get_row_key mode r) then none
  else dict_get I (get_row_key mode r)

/-- `small` occurs contiguously inside `big`. -/
def str_includes (big small : String) : Prop :=
  ∃ pre post, big = pre ++ small ++ post

/-- What the indexer sees of a child: nothing for non-records, the derived
key and the indexing guard for records. -/
def child_info (mode : KeyMode) : Child → Option (Key × Bool)
  | .bnobj b => some (record_key mode b, index_keep mode b)
  | .other _ => none

/-- The distinct elements of a list, in first-occurrence order (the iteration
order of Python's `Counter`). -/
def ordered_distinct (keys : List Key) : List Key :=
  keys.foldl (fun acc k => if k ∈ acc then acc else acc ++ [k]) []

/-- `detect_duplicate_keys` (csv-to-xml.py lines 72–81).  Note the guard
`if k` tests the truthiness of the key *tuple*, i.e. that the tuple itself is
non-empty (`k ≠ []`), not that it has a non-empty component. -/
def detect_duplicate_keys (rows : List Row) (mode : KeyMode) : List Key :=
  let keys := rows.map (get_row_key mode)
  (ordered_distinct keys).filter
    (fun k => decide (k ≠ []) && decide (1 < keys.count k))

/-- The errors the two scripts raise, per the spec's taxonomy. -/
inductive RunError where
  | structureError
  | formatError (msg : String)
  | validationError (msg : String)
deriving DecidableEq

def key_mode_str : KeyMode → String
  | .name => "Name"
  | .vaddr_dbaddr => "VAddr+DBAddr"

/-- Rendering of one key tuple in the duplicate-keys message. -/
def repr_key (k : Key) : String :=
  match k with
  | [s] => "('" ++ s ++ "',)"
  | _ => "(" ++ String.intercalate ", " (k.map (fun s => "'" ++ s ++ "'")) ++ ")"

/-- Rendering of a list of keys, comma separated. -/
def repr_key_list : List Key → String
  | [] => ""
  | [k] => repr_key k
  | k :: ks => repr_key k ++ ", " ++ repr_key_list ks

def repr_keys (ks : List Key) : String := "[" ++ repr_key_list ks ++ "]"

/-- The duplicate-keys error message (csv-to-xml.py lines 124–125): the first
five offending keys, then the fixed marker `(and more...)` when more than five
exist. -/
def dup_message (mode : KeyMode) (dups : List Key) : String :=
  "CSV contains duplicate keys for key_mode=" ++ key_mode_str mode ++ ": "
    ++ repr_keys (dups.take 5) ++ " "
    ++ (if 5 < dups.length then "(and more...)" else "")

/-- The columns to update (csv-to-xml.py lines 115–119). -/
def fields_to_update (include_fields : Option (List String))
    (header : List String) : List String :=
  match include_fields with
  | none => header.filter (fun h => decide (h ∈ ALL_FIELDS))
  | some fs => fs.filter (fun f => decide (f ∈ header))

/-- One change-log entry: `(key display string, tag, old, new)`. -/
abbrev Change := String × String × String × String

/-- The display string of a key (csv-to-xml.py line 168). -/
def key_str (mode : KeyMode) (k : Key) : String :=
  match mode with
  | .name => k.getD 0 ""
  | .vaddr_dbaddr => k.getD 0 "" ++ "+" ++ k.getD 1 ""

/-- The field-update loop of `update_from_csv` (lines 159–169) on one record:
returns the updated record and the change entries, in field order. -/
def update_fields (ue : Bool) (ks : String) (r : Row) :
    List String → Record → Record × List Change
  | [], b => (b, [])
  | tag :: rest, b =>
      let new_val := row_get r tag
      if ue = false ∧ new_val = "" then
        update_fields ue ks r rest b
      else
        let old_val := findtext b tag
        if old_val ≠ new_val then
          let res := update_fields ue ks r rest (set_child_text b tag new_val)
          (res.1, (ks, tag, old_val, new_val) :: res.2)
        else
          update_fields ue ks r rest b

/-- The evolving state of the Selective Updater's row loop. -/
structure LoopState where
  node : Node
  idx : List (Key × Nat)
  changes : List Change
  added : Nat
  skipped : Nat

/-- The record stored at child position `i` (the object the Python index
holds a reference to; positions in the index always hold records). -/
def child_record (node : Node) (i : Nat) : Record :=
  match node.get? i with
  | some (Child.bnobj b) => b
  | _ => []

/-- One iteration of the row loop of `update_from_csv` (lines 140–169). -/
def process_row (mode : KeyMode) (allow_add update_empty : Bool)
    (fields : List String) (st : LoopState) (r : Row) : LoopState :=
  let key := get_row_key mode r
  if key_empty key then
    { st with skipped := st.skipped + 1 }
  else
    match dict_get st.idx key with
    | some i =>
        let b := child_record st.node i
        let res := update_fields update_empty (key_str mode key) r fields b
        { st with
            node := st.node.set i (Child.bnobj res.1),
            changes := st.changes ++ res.2 }
    | none =>
        if allow_add = false then
          { st with skipped := st.skipped + 1 }
        else
          let r' :=
            if mode = KeyMode.vaddr_dbaddr ∧ row_get r "Name" = "" then
              row_set r "Name"
                ("BNObj_" ++ row_get r "VAddr" ++ "_" ++ row_get r "DBAddr")
            else r
          let res := update_fields update_empty (key_str mode key) r' fields []
          { node := st.node ++ [Child.bnobj res.1],
            idx := st.idx ++ [(key, st.node.length)],
            changes := st.changes ++ res.2,
            added := st.added + 1,
            skipped := st.skipped }

/-- `update_from_csv` (csv-to-xml.py lines 83–183), modulo file I/O: the
container (`none` when the XPath finds nothing), the loaded CSV header and
rows stand in for the paths.  Returns the rewritten container, the change
log, the added count and the skipped count, or the fatal error. -/
def update_from_csv (mode : KeyMode) (include_fields : Option (List String))
    (allow_add update_empty : Bool) (nodeOpt : Option Node)
    (header : List String) (rows : List Row) :
    Except RunError (Node × List Change × Nat × Nat) :=
  match nodeOpt with
  | none => .error .structureError
  | some node =>
      if header = [] then
        .error (.formatError
          "CSV has no header. Expecting at least 'Name' or 'VAddr,DBAddr'.")
      else
        let fields := fields_to_update include_fields header
        let dups := detect_duplicate_keys rows mode
        if dups ≠ [] then
          .error (.validationError (dup_message mode dups))
        else
          let idx := index_bnobjs node mode
          let fin := rows.foldl (process_row mode allow_add update_empty fields)
            ⟨node, idx, [], 0, 0⟩
          .ok (fin.node, fin.changes, fin.added, fin.skipped)

/-- `clear_existing_bnobj` (csv-to-xml2.py lines 36–41): remove every direct
BNObj child, returning the count removed. -/
def clear_existing_bnobj (node : Node) : Node × Nat :=
  (node.filter (fun c => !is_bnobj c), (node.filter is_bnobj).length)

/-- The field-creation loop of `create_bnobj_from_row`
(csv-to-xml2.py lines 49–57). -/
def create_fields (r : Row) (write_empty : Bool) : List String → Record
  | [] => []
  | col :: rest =>
      let tag := strip col
      if tag = "" then create_fields r write_empty rest
      else
        let val := row_get r tag
        if write_empty = false ∧ val = "" then create_fields r write_empty rest
        else (tag, val) :: create_fields r write_empty rest

/-- `create_bnobj_from_row` (csv-to-xml2.py lines 43–58), returning the new
record's children. -/
def create_bnobj_from_row (header : List String) (r : Row)
    (write_empty : Bool) : Record :=
  create_fields r write_empty header

/-- `replace_bnobj_from_csv` (csv-to-xml2.py lines 60–96), modulo file I/O.
Returns the rewritten container, the removed count and the added count, or
the fatal error. -/
def replace_bnobj_from_csv (nodeOpt : Option Node) (header : List String)
    (rows : List Row) (write_empty : Bool) :
    Except RunError (Node × Nat × Nat) :=
  match nodeOpt with
  | none => .error .structureError
  | some node =>
      if header = [] then
        .error (.formatError "CSV has no header.")
      else if rows = [] then
        .error (.validationError
          "CSV contains no data rows; refusing to wipe BNObj to empty.")
      else
        let cleared := clear_existing_bnobj node
        .ok (cleared.1
              ++ rows.map (fun r =>
                    Child.bnobj (create_bnobj_from_row header r write_empty)),
             cleared.2, rows.length)

/-! ### Record and row field lemmas -/

theorem assoc_get_set_self (b : Record) (tag v : String) :
    assoc_get (set_child_text b tag v) tag = some v := by
  induction b with
  | nil => simp [set_child_text, assoc_get]
  | cons p rest ih =>
      obtain ⟨t, x⟩ := p
      by_cases h : t = tag
      · subst h; simp [set_child_text, assoc_get]
      · simp [set_child_text, assoc_get, h, ih]

theorem assoc_get_set_ne (b : Record) {tag t : String} (h : tag ≠ t)
    (v : String) : assoc_get (set_child_text b tag v) t = assoc_get b t := by
  induction b with
  | nil => simp [set_child_text, assoc_get, h]
  | cons p rest ih =>
      obtain ⟨t', x⟩ := p
      by_cases h' : t' = tag
      · subst h'; simp [set_child_text, assoc_get, h]
      · simp only [set_child_text, if_neg h', assoc_get]
        by_cases h'' : t' = t
        · simp [h'']
        · simp [h'', ih]

theorem findtext_set_self (b : Record) (tag v : String) :
    findtext (set_child_text b tag v) tag = v := by
  simp [findtext, assoc_get_set_self]

theorem findtext_set_ne (b : Record) {tag t : String} (h : tag ≠ t)
    (v : String) : findtext (set_child_text b tag v) t = findtext b t := by
  simp [findtext, assoc_get_set_ne b h]

theorem assoc_get_row_set_self (r : Row) (k v : String) :
    assoc_get (row_set r k v) k = some v := by
  induction r with
  | nil => simp [row_set, assoc_get]
  | cons p rest ih =>
      obtain ⟨k', x⟩ := p
      by_cases h : k' = k
      · subst h; simp [row_set, assoc_get]
      · simp [row_set, assoc_get, h, ih]

theorem assoc_get_row_set_ne (r : Row) {k t : String} (h : k ≠ t)
    (v : String) : assoc_get (row_set r k v) t = assoc_get r t := by
  induction r with
  | nil => simp [row_set, assoc_get, h]
  | cons p rest ih =>
      obtain ⟨k', x⟩ := p
      by_cases h' : k' = k
      · subst h'; simp [row_set, assoc_get, h]
      · simp only [row_set, if_neg h', assoc_get]
        by_cases h'' : k' = t
        · simp [h'']
        · simp [h'', ih]

theorem row_get_set_self (r : Row) (k v : String) :
    row_get (row_set r k v) k = v := by
  simp [row_get, assoc_get_row_set_self]

theorem row_get_set_ne (r : Row) {k t : String} (h : k ≠ t) (v : String) :
    row_get (row_set r k v) t = row_get r t := by
  simp [row_get, assoc_get_row_set_ne r h]

/-! ### The field-update loop -/

/-- After the field loop, a field's text is the row's value when the field is
in the update list and not skipped, and is untouched otherwise. -/
theorem findtext_update_fields (ue : Bool) (ks : String) (r : Row)
    (fields : List String) (b : Record) (t : String) :
    findtext (update_fields ue ks r fields b).1 t =
      if t ∈ fields ∧ ¬(ue = false ∧ row_get r t = "") then row_get r t
      else findtext b t := by
  induction fields generalizing b with
  | nil => simp [update_fields]
  | cons tag rest ih =>
      simp only [update_fields]
      by_cases hskip : ue = false ∧ row_get r tag = ""
      · rw [if_pos hskip, ih]
        by_cases hmem : t ∈ rest ∧ ¬(ue = false ∧ row_get r t = "")
        · rw [if_pos hmem, if_pos ⟨List.mem_cons_of_mem _ hmem.1, hmem.2⟩]
        · rw [if_neg hmem]
          by_cases hx : t ∈ tag :: rest ∧ ¬(ue = false ∧ row_get r t = "")
          · rcases List.mem_cons.1 hx.1 with h1 | h1
            · subst h1; exact absurd hskip hx.2
            · exact absurd ⟨h1, hx.2⟩ hmem
          · rw [if_neg hx]
      · rw [if_neg hskip]
        by_cases hw : findtext b tag ≠ row_get r tag
        · rw [if_pos hw]
          simp only []
          rw [ih]
          by_cases hmem : t ∈ rest ∧ ¬(ue = false ∧ row_get r t = "")
          · rw [if_pos hmem, if_pos ⟨List.mem_cons_of_mem _ hmem.1, hmem.2⟩]
          · rw [if_neg hmem]
            by_cases ht : t = tag
            · subst ht
              rw [findtext_set_self, if_pos ⟨List.mem_cons_self _ _, hskip⟩]
            · rw [findtext_set_ne b (fun h => ht h.symm)]
              by_cases hx : t ∈ tag :: rest ∧ ¬(ue = false ∧ row_get r t = "")
              · rcases List.mem_cons.1 hx.1 with h1 | h1
                · exact absurd h1 ht
                · exact absurd ⟨h1, hx.2⟩ hmem
              · rw [if_neg hx]
        · rw [if_neg hw, ih]
          push_neg at hw
          by_cases hmem : t ∈ rest ∧ ¬(ue = false ∧ row_get r t = "")
          · rw [if_pos hmem, if_pos ⟨List.mem_cons_of_mem _ hmem.1, hmem.2⟩]
          · rw [if_neg hmem]
            by_cases ht : t = tag
            · subst ht
              rw [if_pos ⟨List.mem_cons_self _ _, hskip⟩, hw]
            · by_cases hx : t ∈ tag :: rest ∧ ¬(ue = false ∧ row_get r t = "")
              · rcases List.mem_cons.1 hx.1 with h1 | h1
                · exact absurd h1 ht
                · exact absurd ⟨h1, hx.2⟩ hmem
              · rw [if_neg hx]

/-- If every non-skipped field of the update list already carries the row's
value, the field loop is a no-op and logs nothing. -/
theorem update_fields_no_op (ue : Bool) (ks : String) (r : Row)
    (fields : List String) (b : Record)
    (h : ∀ t ∈ fields, ¬(ue = false ∧ row_get r t = "") →
      findtext b t = row_get r t) :
    update_fields ue ks r fields b = (b, []) := by
  induction fields with
  | nil => simp [update_fields]
  | cons tag rest ih =>
      simp only [update_fields]
      by_cases hskip : ue = false ∧ row_get r tag = ""
      · rw [if_pos hskip]
        exact ih (fun t ht h' => h t (List.mem_cons_of_mem _ ht) h')
      · rw [if_neg hskip]
        have heq : findtext b tag = row_get r tag :=
          h tag (List.mem_cons_self _ _) hskip
        rw [if_neg (by simpa using heq)]
        exact ih (fun t ht h' => h t (List.mem_cons_of_mem _ ht) h')

/-- Running the field loop a second time with the same row changes nothing
and logs nothing. -/
theorem update_fields_idem (ue : Bool) (ks : String) (r : Row)
    (fields : List String) (b : Record) :
    update_fields ue ks r fields (update_fields ue ks r fields b).1 =
      ((update_fields ue ks r fields b).1, []) := by
  apply update_fields_no_op
  intro t ht h'
  rw [findtext_update_fields, if_pos ⟨ht, h'⟩]

/-- Every change entry logged by the field loop carries the display key and a
tag from the update list. -/
theorem update_fields_changes (ue : Bool) (ks : String) (r : Row)
    (fields : List String) (b : Record) :
    ∀ c ∈ (update_fields ue ks r fields b).2, c.1 = ks ∧ c.2.1 ∈ fields := by
  induction fields generalizing b with
  | nil => simp [update_fields]
  | cons tag rest ih =>
      simp only [update_fields]
      by_cases hskip : ue = false ∧ row_get r tag = ""
      · rw [if_pos hskip]
        intro c hc
        obtain ⟨h1, h2⟩ := ih b c hc
        exact ⟨h1, List.mem_cons_of_mem _ h2⟩
      · rw [if_neg hskip]
        by_cases hw : findtext b tag ≠ row_get r tag
        · rw [if_pos hw]
          intro c hc
          rcases List.mem_cons.1 hc with h1 | h1
          · subst h1; exact ⟨rfl, List.mem_cons_self _ _⟩
          · obtain ⟨h2, h3⟩ := ih _ c h1
            exact ⟨h2, List.mem_cons_of_mem _ h3⟩
        · rw [if_neg hw]
          intro c hc
          obtain ⟨h1, h2⟩ := ih b c hc
          exact ⟨h1, List.mem_cons_of_mem _ h2⟩

/-- Fields outside the update list are never touched by the field loop. -/
theorem findtext_update_fields_not_mem (ue : Bool) (ks : String) (r : Row)
    (fields : List String) (b : Record) {t : String} (h : t ∉ fields) :
    findtext (update_fields ue ks r fields b).1 t = findtext b t := by
  rw [findtext_update_fields, if_neg (fun hx => h hx.1)]

/-- A record matched by a row keeps its derived key through the field loop:
the loop can only overwrite a key field with the row's value, whose trimmed
form is the key component the record already had. -/
theorem record_key_update_fields (mode : KeyMode) (ue : Bool) (ks : String)
    (r : Row) (fields : List String) (b : Record)
    (h : record_key mode b = get_row_key mode r) :
    record_key mode (update_fields ue ks r fields b).1 = record_key mode b := by
  cases mode with
  | name =>
      simp only [record_key, get_row_key, List.cons.injEq, and_true] at h ⊢
      rw [findtext_update_fields]
      split
      · rw [h]
      · rfl
  | vaddr_dbaddr =>
      simp only [record_key, get_row_key, List.cons.injEq, and_true] at h ⊢
      obtain ⟨h1, h2⟩ := h
      constructor
      · rw [findtext_update_fields]
        split
        · rw [h1]
        · rfl
      · rw [findtext_update_fields]
        split
        · rw [h2]
        · rfl

/-- Records with the same derived key are indexed under the same guard. -/
theorem index_keep_congr (mode : KeyMode) {b b' : Record}
    (h : record_key mode b' = record_key mode b) :
    index_keep mode b' = index_keep mode b := by
  cases mode with
  | name =>
      simp only [record_key, List.cons.injEq, and_true] at h
      simp [index_keep, h]
  | vaddr_dbaddr =>
      simp only [record_key, List.cons.injEq, and_true] at h
      simp [index_keep, h.1, h.2]

/-- The indexing guard accepts a record exactly when its derived key is not
empty. -/
theorem index_keep_iff (mode : KeyMode) (b : Record) :
    index_keep mode b = true ↔ key_empty (record_key mode b) = false := by
  cases mode with
  | name =>
      simp [index_keep, record_key, key_empty, List.all_cons, bne]
  | vaddr_dbaddr =>
      simp [index_keep, record_key, key_empty, List.all_cons, bne]
      tauto

/-! ### The record index -/

theorem dict_get_cons (k' : Key) (v : Nat) (rest : List (Key × Nat))
    (k : Key) :
    dict_get ((k', v) :: rest) k =
      (dict_get rest k).elim (if k' = k then some v else none) some := by
  simp only [dict_get]
  cases dict_get rest k <;> rfl

/-- Python dict lookup on appended binding lists: later bindings win. -/
theorem dict_get_append (l₁ l₂ : List (Key × Nat)) (k : Key) :
    dict_get (l₁ ++ l₂) k = (dict_get l₂ k).elim (dict_get l₁ k) some := by
  induction l₁ with
  | nil => cases hv : dict_get l₂ k <;> simp [hv, dict_get]
  | cons p rest ih =>
      obtain ⟨k', v⟩ := p
      rw [List.cons_append, dict_get_cons, dict_get_cons, ih]
      cases hv : dict_get l₂ k <;> cases hw : dict_get rest k <;> simp

theorem dict_get_append_some (l₁ l₂ : List (Key × Nat)) (k : Key) (v : Nat)
    (h : dict_get l₂ k = some v) : dict_get (l₁ ++ l₂) k = some v := by
  rw [dict_get_append, h]; rfl

theorem dict_get_append_none (l₁ l₂ : List (Key × Nat)) (k : Key)
    (h : dict_get l₂ k = none) : dict_get (l₁ ++ l₂) k = dict_get l₁ k := by
  rw [dict_get_append, h]; rfl

/-- Insertion of a fresh binding, as the Python dict assignment `idx[key] = b`
performed when a record is added. -/
theorem dict_get_insert (l : List (Key × Nat)) (k₀ k : Key) (v : Nat) :
    dict_get (l ++ [(k₀, v)]) k = if k₀ = k then some v else dict_get l k := by
  rw [dict_get_append]
  by_cases h : k₀ = k <;> simp [dict_get, h]

theorem kept_at_cons_succ (mode : KeyMode) (c : Child) (rest : Node) (k : Key)
    (j : Nat) : kept_at mode (c :: rest) k (j + 1) ↔ kept_at mode rest k j := by
  simp [kept_at]

theorem kept_at_cons_zero (mode : KeyMode) (c : Child) (rest : Node) (k : Key) :
    kept_at mode (c :: rest) k 0 ↔
      ∃ b, c = Child.bnobj b ∧ record_key mode b = k ∧
        index_keep mode b = true := by
  simp [kept_at]

/-- The index has a binding for `k` exactly when some child is a record the
indexer keeps under `k`. -/
theorem dict_get_index_from_isSome (mode : KeyMode) (node : Node) (p : Nat)
    (k : Key) :
    (dict_get (index_from mode p node) k).isSome = true ↔
      ∃ j, kept_at mode node k j := by
  induction node generalizing p with
  | nil => simp [index_from, dict_get, kept_at]
  | cons c rest ih =>
      have hsplit : (∃ j, kept_at mode (c :: rest) k j) ↔
          kept_at mode (c :: rest) k 0 ∨ ∃ j, kept_at mode rest k j := by
        constructor
        · rintro ⟨j, hj⟩
          cases j with
          | zero => exact Or.inl hj
          | succ j' => exact Or.inr ⟨j', (kept_at_cons_succ ..).1 hj⟩
        · rintro (hj | ⟨j, hj⟩)
          · exact ⟨0, hj⟩
          · exact ⟨j + 1, (kept_at_cons_succ ..).2 hj⟩
      cases c with
      | other n =>
          rw [show index_from mode p (Child.other n :: rest)
                = index_from mode (p + 1) rest from rfl, ih (p + 1), hsplit]
          simp [kept_at_cons_zero]
      | bnobj b₀ =>
          by_cases hkeep : index_keep mode b₀ = true
          · rw [show index_from mode p (Child.bnobj b₀ :: rest)
                  = (record_key mode b₀, p) :: index_from mode (p + 1) rest by
                simp [index_from, hkeep]]
            rw [dict_get_cons, hsplit, kept_at_cons_zero]
            rcases hv : dict_get (index_from mode (p + 1) rest) k with _ | v
            · have hrest : ¬ ∃ j, kept_at mode rest k j := by
                rw [← ih (p + 1)]; simp [hv]
              by_cases hk : record_key mode b₀ = k
              · simp only [hv, Option.elim_none, if_pos hk,
                  Option.isSome_some]
                constructor
                · intro _; exact Or.inl ⟨b₀, rfl, hk, hkeep⟩
                · intro _; trivial
              · simp only [hv, Option.elim_none, if_neg hk]
                constructor
                · intro h; simp at h
                · rintro (⟨b, hb, hkey, _⟩ | hj)
                  · obtain rfl : b₀ = b := by injection hb
                    exact absurd hkey hk
                  · exact absurd hj hrest
            · have hex : ∃ j, kept_at mode rest k j := by
                rw [← ih (p + 1)]; simp [hv]
              simp only [hv, Option.elim_some, Option.isSome_some]
              constructor
              · intro _; exact Or.inr hex
              · intro _; trivial
          · rw [show index_from mode p (Child.bnobj b₀ :: rest)
                  = index_from mode (p + 1) rest by simp [index_from, hkeep]]
            rw [ih (p + 1), hsplit]
            have : ¬ kept_at mode (Child.bnobj b₀ :: rest) k 0 := by
              rw [kept_at_cons_zero]
              rintro ⟨b, hb, _, hkp⟩
              obtain rfl : b₀ = b := by injection hb
              exact hkeep hkp
            simp [this]

/-- Characterisation of the record index: `dict_get` returns the position of
the *last* child holding a kept record with the looked-up key. -/
theorem dict_get_index_from (mode : KeyMode) (node : Node) (p : Nat) (k : Key)
    (i : Nat) :
    dict_get (index_from mode p node) k = some i ↔
      ∃ j, i = p + j ∧ kept_at mode node k j ∧
        ∀ j', j < j' → ¬ kept_at mode node k j' := by
  induction node generalizing p with
  | nil => simp [index_from, dict_get, kept_at]
  | cons c rest ih =>
      have hconsiff : (∃ j, i = p + j ∧ kept_at mode (c :: rest) k j ∧
            ∀ j', j < j' → ¬ kept_at mode (c :: rest) k j') ↔
          ((i = p ∧ kept_at mode (c :: rest) k 0 ∧
              ∀ j, ¬ kept_at mode rest k j) ∨
            (∃ j, i = (p + 1) + j ∧ kept_at mode rest k j ∧
              ∀ j', j < j' → ¬ kept_at mode rest k j')) := by
        constructor
        · rintro ⟨j, hij, hk, hlast⟩
          cases j with
          | zero =>
              refine Or.inl ⟨by omega, hk, fun m => ?_⟩
              have := hlast (m + 1) (by omega)
              rwa [kept_at_cons_succ] at this
          | succ j' =>
              refine Or.inr ⟨j', by omega, (kept_at_cons_succ ..).1 hk,
                fun m hm => ?_⟩
              have := hlast (m + 1) (by omega)
              rwa [kept_at_cons_succ] at this
        · rintro (⟨hip, hk0, hnone⟩ | ⟨j, hij, hk, hlast⟩)
          · refine ⟨0, by omega, hk0, fun m hm => ?_⟩
            cases m with
            | zero => omega
            | succ m' => rw [kept_at_cons_succ]; exact hnone m'
          · refine ⟨j + 1, by omega, (kept_at_cons_succ ..).2 hk,
              fun m hm => ?_⟩
            cases m with
            | zero => omega
            | succ m' => rw [kept_at_cons_succ]; exact hlast m' (by omega)
      rw [hconsiff]
      cases c with
      | other n =>
          rw [show index_from mode p (Child.other n :: rest)
                = index_from mode (p + 1) rest from rfl, ih (p + 1)]
          have : ¬ kept_at mode (Child.other n :: rest) k 0 := by
            rw [kept_at_cons_zero]
            rintro ⟨b, hb, _, _⟩
            exact absurd hb (by simp)
          simp [this]
      | bnobj b₀ =>
          by_cases hkeep : index_keep mode b₀ = true
          · rw [show index_from mode p (Child.bnobj b₀ :: rest)
                  = (record_key mode b₀, p) :: index_from mode (p + 1) rest by
                simp [index_from, hkeep]]
            rw [dict_get_cons]
            rcases hv : dict_get (index_from mode (p + 1) rest) k with _ | v
            · have hrest : ¬ ∃ j, kept_at mode rest k j := by
                rw [← dict_get_index_from_isSome mode rest (p + 1) k]
                simp [hv]
              have hshift : ¬ ∃ j, i = (p + 1) + j ∧ kept_at mode rest k j ∧
                  ∀ j', j < j' → ¬ kept_at mode rest k j' := by
                rintro ⟨j, _, hk, _⟩
                exact hrest ⟨j, hk⟩
              by_cases hk : record_key mode b₀ = k
              · simp only [Option.elim_none, if_pos hk]
                constructor
                · intro hsome
                  refine Or.inl ⟨by
                      injection hsome with h; omega,
                    (kept_at_cons_zero ..).2 ⟨b₀, rfl, hk, hkeep⟩,
                    fun j hj => hrest ⟨j, hj⟩⟩
                · rintro (⟨hip, _, _⟩ | hs)
                  · rw [hip]
                  · exact absurd hs hshift
              · simp only [Option.elim_none, if_neg hk]
                constructor
                · intro h; exact absurd h (by simp)
                · rintro (⟨_, hk0, _⟩ | hs)
                  · rw [kept_at_cons_zero] at hk0
                    obtain ⟨b, hb, hkey, _⟩ := hk0
                    obtain rfl : b₀ = b := by injection hb
                    exact absurd hkey hk
                  · exact absurd hs hshift
            · have hex : ∃ j, kept_at mode rest k j := by
                rw [← dict_get_index_from_isSome mode rest (p + 1) k]
                simp [hv]
              simp only [Option.elim_some]
              rw [← hv, ih (p + 1)]
              constructor
              · intro hs; exact Or.inr hs
              · rintro (⟨_, _, hnone⟩ | hs)
                · obtain ⟨j, hj⟩ := hex
                  exact absurd hj (hnone j)
                · exact hs
          · rw [show index_from mode p (Child.bnobj b₀ :: rest)
                  = index_from mode (p + 1) rest by simp [index_from, hkeep]]
            rw [ih (p + 1)]
            have hk0 : ¬ kept_at mode (Child.bnobj b₀ :: rest) k 0 := by
              rw [kept_at_cons_zero]
              rintro ⟨b, hb, _, hkp⟩
              obtain rfl : b₀ = b := by injection hb
              exact hkeep hkp
            simp [hk0]

/-- An index binding always points at a kept record with the bound key. -/
theorem dict_get_index_bnobjs_some {mode : KeyMode} {node : Node} {k : Key}
    {i : Nat} (h : dict_get (index_bnobjs node mode) k = some i) :
    ∃ b, node.get? i = some (Child.bnobj b) ∧ record_key mode b = k ∧
      index_keep mode b = true := by
  rw [index_bnobjs, dict_get_index_from] at h
  obtain ⟨j, hij, hk, _⟩ := h
  obtain rfl : i = j := by omega
  exact hk

/-- Two keys bound to the same position are equal. -/
theorem dict_get_index_bnobjs_inj {mode : KeyMode} {node : Node}
    {k k' : Key} {i : Nat}
    (h : dict_get (index_bnobjs node mode) k = some i)
    (h' : dict_get (index_bnobjs node mode) k' = some i) : k = k' := by
  obtain ⟨b, hb, hk, _⟩ := dict_get_index_bnobjs_some h
  obtain ⟨b', hb', hk', _⟩ := dict_get_index_bnobjs_some h'
  rw [hb] at hb'
  obtain rfl : b = b' := by simpa using hb'
  rw [← hk, ← hk']

/-- Records whose derived key is empty are never indexed. -/
theorem index_skips_empty (mode : KeyMode) (node : Node) (k : Key)
    (hk : key_empty k = true) :
    dict_get (index_bnobjs node mode) k = none := by
  rcases hv : dict_get (index_bnobjs node mode) k with _ | i
  · rfl
  · obtain ⟨b, _, hkey, hkeep⟩ := dict_get_index_bnobjs_some hv
    rw [index_keep_iff, hkey, hk] at hkeep
    simp at hkeep

/-! ### The Selective Updater's row loop -/

theorem process_row_empty_key {mode : KeyMode} {aa ue : Bool}
    {fields : List String} {st : LoopState} {r : Row}
    (h : key_empty (get_row_key mode r) = true) :
    process_row mode aa ue fields st r =
      { st with skipped := st.skipped + 1 } := by
  simp [process_row, h]

theorem process_row_found {mode : KeyMode} {aa ue : Bool}
    {fields : List String} {st : LoopState} {r : Row} {i : Nat}
    (hne : key_empty (get_row_key mode r) = false)
    (hi : dict_get st.idx (get_row_key mode r) = some i) :
    process_row mode aa ue fields st r =
      { st with
          node := st.node.set i (Child.bnobj
            (update_fields ue (key_str mode (get_row_key mode r)) r fields
              (child_record st.node i)).1),
          changes := st.changes ++
            (update_fields ue (key_str mode (get_row_key mode r)) r fields
              (child_record st.node i)).2 } := by
  simp [process_row, hne, hi]

theorem process_row_notfound_skip {mode : KeyMode} {ue : Bool}
    {fields : List String} {st : LoopState} {r : Row}
    (hne : key_empty (get_row_key mode r) = false)
    (hi : dict_get st.idx (get_row_key mode r) = none) :
    process_row mode false ue fields st r =
      { st with skipped := st.skipped + 1 } := by
  simp [process_row, hne, hi]

theorem process_row_notfound_add {mode : KeyMode} {ue : Bool}
    {fields : List String} {st : LoopState} {r : Row}
    (hne : key_empty (get_row_key mode r) = false)
    (hi : dict_get st.idx (get_row_key mode r) = none) :
    process_row mode true ue fields st r =
      { node := st.node ++ [Child.bnobj
          (update_fields ue (key_str mode (get_row_key mode r))
            (if mode = KeyMode.vaddr_dbaddr ∧ row_get r "Name" = "" then
              row_set r "Name"
                ("BNObj_" ++ row_get r "VAddr" ++ "_" ++ row_get r "DBAddr")
            else r) fields []).1],
        idx := st.idx ++ [(get_row_key mode r, st.node.length)],
        changes := st.changes ++
          (update_fields ue (key_str mode (get_row_key mode r))
            (if mode = KeyMode.vaddr_dbaddr ∧ row_get r "Name" = "" then
              row_set r "Name"
                ("BNObj_" ++ row_get r "VAddr" ++ "_" ++ row_get r "DBAddr")
            else r) fields []).2,
        added := st.added + 1,
        skipped := st.skipped } := by
  simp [process_row, hne, hi]

/-- Without `allow_add`, one loop step never changes the index, the added
count, or the number of children. -/
theorem process_row_noadd_frame (mode : KeyMode) (ue : Bool)
    (fields : List String) (st : LoopState) (r : Row) :
    (process_row mode false ue fields st r).idx = st.idx ∧
    (process_row mode false ue fields st r).added = st.added ∧
    (process_row mode false ue fields st r).node.length = st.node.length := by
  cases hek : key_empty (get_row_key mode r) with
  | true => rw [process_row_empty_key hek]; exact ⟨rfl, rfl, rfl⟩
  | false =>
      rcases hi : dict_get st.idx (get_row_key mode r) with _ | i
      · rw [process_row_notfound_skip hek hi]; exact ⟨rfl, rfl, rfl⟩
      · rw [process_row_found hek hi]
        exact ⟨rfl, rfl, by simp⟩

theorem foldl_noadd_frame (mode : KeyMode) (ue : Bool) (fields : List String)
    (rows : List Row) (st : LoopState) :
    (rows.foldl (process_row mode false ue fields) st).idx = st.idx ∧
    (rows.foldl (process_row mode false ue fields) st).added = st.added ∧
    (rows.foldl (process_row mode false ue fields) st).node.length
      = st.node.length := by
  induction rows generalizing st with
  | nil => exact ⟨rfl, rfl, rfl⟩
  | cons r rest ih =>
      rw [List.foldl_cons]
      obtain ⟨h1, h2, h3⟩ := process_row_noadd_frame mode ue fields st r
      obtain ⟨g1, g2, g3⟩ := ih (process_row mode false ue fields st r)
      exact ⟨g1.trans h1, g2.trans h2, g3.trans h3⟩

/-- Without `allow_add`, the loop's skipped counter counts exactly the rows
whose key is empty together with the rows whose key has no index binding. -/
theorem foldl_noadd_skipped (mode : KeyMode) (ue : Bool)
    (fields : List String) (rows : List Row) (st : LoopState) :
    (rows.foldl (process_row mode false ue fields) st).skipped =
      st.skipped + rows.countP (fun r =>
        key_empty (get_row_key mode r)
          || (dict_get st.idx (get_row_key mode r)).isNone) := by
  induction rows generalizing st with
  | nil => simp
  | cons r rest ih =>
      rw [List.foldl_cons, ih, List.countP_cons]
      have hidx := (process_row_noadd_frame mode ue fields st r).1
      rw [hidx]
      cases hek : key_empty (get_row_key mode r) with
      | true => rw [process_row_empty_key hek]; simp [hek]; omega
      | false =>
          rcases hi : dict_get st.idx (get_row_key mode r) with _ | i
          · rw [process_row_notfound_skip hek hi]; simp [hek, hi]; omega
          · rw [process_row_found hek hi]; simp [hek, hi]

theorem set_get?_self {α : Type} {l : List α} {i : Nat} {c : α}
    (h : l.get? i = some c) : l.set i c = l := by
  induction l generalizing i with
  | nil => simp at h
  | cons x xs ih =>
      cases i with
      | zero =>
          simp only [List.get?] at h
          obtain rfl : x = c := by injection h
          rfl
      | succ i' =>
          simp only [List.get?] at h
          show x :: xs.set i' c = x :: xs
          rw [ih h]

theorem find?_eq_of_unique {α : Type} {p : α → Bool} {l : List α} {a : α}
    (ha : a ∈ l) (hpa : p a = true)
    (huniq : ∀ b ∈ l, p b = true → b = a) : l.find? p = some a := by
  induction l with
  | nil => simp at ha
  | cons x xs ih =>
      by_cases hx : p x = true
      · rw [List.find?_cons_of_pos _ hx, huniq x (List.mem_cons_self _ _) hx]
      · rw [List.find?_cons_of_neg _ (by simpa using hx)]
        rcases List.mem_cons.1 ha with rfl | ha'
        · exact absurd hpa hx
        · exact ih ha' (fun b hb hpb => huniq b (List.mem_cons_of_mem _ hb) hpb)

theorem child_record_set_ne {node : Node} {i j : Nat} (h : i ≠ j)
    (c : Child) : child_record (node.set i c) j = child_record node j := by
  unfold child_record
  rw [List.get?_set_ne _ _ h]

theorem matched_pos_some {I : List (Key × Nat)} {mode : KeyMode} {r : Row}
    {i : Nat} (h : matched_pos I mode r = some i) :
    key_empty (get_row_key mode r) = false ∧
      dict_get I (get_row_key mode r) = some i := by
  rw [matched_pos] at h
  by_cases hek : key_empty (get_row_key mode r) = true
  · rw [if_pos hek] at h; exact absurd h (by simp)
  · rw [if_neg hek] at h; exact ⟨by simpa using hek, h⟩

theorem matched_pos_none {I : List (Key × Nat)} {mode : KeyMode} {r : Row}
    (h : matched_pos I mode r = none) :
    key_empty (get_row_key mode r) = true ∨
      (key_empty (get_row_key mode r) = false ∧
        dict_get I (get_row_key mode r) = none) := by
  rw [matched_pos] at h
  by_cases hek : key_empty (get_row_key mode r) = true
  · exact Or.inl hek
  · rw [if_neg hek] at h
    exact Or.inr ⟨by simpa using hek, h⟩

/-- Characterisation of the whole row loop without `allow_add`: child `j` of
the final container is the original child updated by the unique row the index
sends to `j`, and is untouched when no row matches `j`. -/
theorem foldl_noadd_node_char (mode : KeyMode) (ue : Bool)
    (fields : List String) (I : List (Key × Nat)) (rows : List Row)
    (st : LoopState) (hidx : st.idx = I)
    (hlen : ∀ k i, dict_get I k = some i → i < st.node.length)
    (hpw : rows.Pairwise (fun r₁ r₂ => ∀ i,
      matched_pos I mode r₁ = some i → matched_pos I mode r₂ ≠ some i))
    (j : Nat) :
    (rows.foldl (process_row mode false ue fields) st).node.get? j =
      match rows.find? (fun r => matched_pos I mode r == some j) with
      | some r => some (Child.bnobj
          (update_fields ue (key_str mode (get_row_key mode r)) r fields
            (child_record st.node j)).1)
      | none => st.node.get? j := by
  induction rows generalizing st with
  | nil => simp
  | cons r rest ih =>
      rw [List.foldl_cons]
      have hpw' := (List.pairwise_cons.1 hpw).2
      have hhead := (List.pairwise_cons.1 hpw).1
      rcases hm : matched_pos I mode r with _ | i
      · have hnode : (process_row mode false ue fields st r).node = st.node := by
          rcases matched_pos_none hm with hek | ⟨hek, hd⟩
          · rw [process_row_empty_key hek]
          · rw [process_row_notfound_skip hek (hidx ▸ hd)]
        have hres := ih (process_row mode false ue fields st r)
          (((process_row_noadd_frame mode ue fields st r).1).trans hidx)
          (fun k i hki => by
            rw [(process_row_noadd_frame mode ue fields st r).2.2]
            exact hlen k i hki)
          hpw'
        rw [List.find?_cons_of_neg _ (by simp [hm])]
        rw [hres, hnode]
      · obtain ⟨hek, hd⟩ := matched_pos_some hm
        have hilen : i < st.node.length := hlen _ _ hd
        rw [process_row_found hek (hidx ▸ hd)]
        set b' := (update_fields ue (key_str mode (get_row_key mode r)) r
          fields (child_record st.node i)).1 with hb'
        have hres := ih
          { st with
              node := st.node.set i (Child.bnobj b'),
              changes := st.changes ++
                (update_fields ue (key_str mode (get_row_key mode r)) r fields
                  (child_record st.node i)).2 }
          hidx
          (fun k i' hki => by
            simp only [List.length_set]
            exact hlen k i' hki)
          hpw'
        by_cases hij : j = i
        · subst hij
          rw [List.find?_cons_of_pos _ (by simp [hm])]
          have hnone : rest.find?
              (fun r' => matched_pos I mode r' == some j) = none := by
            rw [List.find?_eq_none]
            intro r' hr'
            have := hhead r' hr' j hm
            simp [this]
          rw [hres, hnone]
          simp only []
          rw [List.get?_set_eq_of_lt _ hilen]
        · rw [List.find?_cons_of_neg _ (by simp [hm, Ne.symm hij])]
          rw [hres]
          have hg : (st.node.set i (Child.bnobj b')).get? j = st.node.get? j :=
            List.get?_set_ne _ _ (fun h => hij h.symm)
          have hc : child_record (st.node.set i (Child.bnobj b')) j
              = child_record st.node j :=
            child_record_set_ne (fun h => hij h.symm) _
          cases hf : rest.find? (fun r' => matched_pos I mode r' == some j) with
          | none => simp only [hf, hg]
          | some r' => simp only [hf, hc]

/-- Containers whose children are pointwise indistinguishable to the indexer
produce the same index. -/
theorem index_from_congr (mode : KeyMode) (n₁ n₂ : Node)
    (h : ∀ j, (n₁.get? j).map (child_info mode)
      = (n₂.get? j).map (child_info mode)) :
    ∀ p, index_from mode p n₁ = index_from mode p n₂ := by
  induction n₁ generalizing n₂ with
  | nil =>
      intro p
      cases n₂ with
      | nil => rfl
      | cons c₂ rest₂ => have := h 0; simp at this
  | cons c₁ rest₁ ih =>
      intro p
      cases n₂ with
      | nil => have := h 0; simp at this
      | cons c₂ rest₂ =>
          have h0 := h 0
          simp only [List.get?, Option.map_some'] at h0
          have hinfo : child_info mode c₁ = child_info mode c₂ := by
            injection h0
          have htail : ∀ j, (rest₁.get? j).map (child_info mode)
              = (rest₂.get? j).map (child_info mode) := fun j => by
            have := h (j + 1); simpa using this
          have hrest := ih rest₂ htail (p + 1)
          cases c₁ with
          | other n =>
              cases c₂ with
              | other m => simpa [index_from] using hrest
              | bnobj b₂ => simp [child_info] at hinfo
          | bnobj b₁ =>
              cases c₂ with
              | other m => simp [child_info] at hinfo
              | bnobj b₂ =>
                  simp only [child_info, Option.some.injEq,
                    Prod.mk.injEq] at hinfo
                  obtain ⟨hk, hkeep⟩ := hinfo
                  simp only [index_from]
                  rw [hk, hkeep, hrest]

/-- If every row of the remaining list is already "settled" in the container
(its matched record needs no field update), the loop leaves the container,
the change log and the added count untouched. -/
theorem foldl_noop (mode : KeyMode) (ue : Bool) (fields : List String)
    (I : List (Key × Nat)) (node₁ : Node) (rows' : List Row)
    (st : LoopState) (hnode : st.node = node₁) (hidx : st.idx = I)
    (hch : st.changes = []) (had : st.added = 0)
    (hfix : ∀ r ∈ rows', ∀ i, matched_pos I mode r = some i →
      node₁.get? i = some (Child.bnobj (child_record node₁ i)) ∧
      update_fields ue (key_str mode (get_row_key mode r)) r fields
        (child_record node₁ i) = (child_record node₁ i, [])) :
    (rows'.foldl (process_row mode false ue fields) st).node = node₁ ∧
    (rows'.foldl (process_row mode false ue fields) st).changes = [] ∧
    (rows'.foldl (process_row mode false ue fields) st).added = 0 := by
  induction rows' generalizing st with
  | nil => exact ⟨hnode, hch, had⟩
  | cons r rest ih =>
      rw [List.foldl_cons]
      have hfixtail := fun r' hr' => hfix r' (List.mem_cons_of_mem _ hr')
      rcases hm : matched_pos I mode r with _ | i
      · rcases matched_pos_none hm with hek | ⟨hek, hd⟩
        · rw [process_row_empty_key hek]
          exact ih _ hnode hidx hch had hfixtail
        · rw [process_row_notfound_skip hek (hidx ▸ hd)]
          exact ih _ hnode hidx hch had hfixtail
      · obtain ⟨hek, hd⟩ := matched_pos_some hm
        obtain ⟨hbn, hupd⟩ := hfix r (List.mem_cons_self _ _) i hm
        rw [process_row_found hek (hidx ▸ hd)]
        refine ih _ ?_ hidx ?_ had hfixtail
        · show st.node.set i (Child.bnobj
              (update_fields ue (key_str mode (get_row_key mode r)) r fields
                (child_record st.node i)).1) = node₁
          rw [hnode, hupd]
          exact set_get?_self hbn
        · show st.changes ++
              (update_fields ue (key_str mode (get_row_key mode r)) r fields
                (child_record st.node i)).2 = []
          rw [hnode, hupd, hch]
          rfl

theorem get?_some_lt {α : Type} {l : List α} {i : Nat} {a : α}
    (h : l.get? i = some a) : i < l.length := by
  by_contra hc
  push_neg at hc
  rw [List.get?_eq_none.2 hc] at h
  exact Option.noConfusion h

theorem mem_foldl_distinct (l : List Key) (acc : List Key) (x : Key) :
    x ∈ l.foldl (fun acc k => if k ∈ acc then acc else acc ++ [k]) acc ↔
      x ∈ acc ∨ x ∈ l := by
  induction l generalizing acc with
  | nil => simp
  | cons k rest ih =>
      rw [List.foldl_cons]
      by_cases hk : k ∈ acc
      · rw [if_pos hk, ih]
        constructor
        · rintro (h | h)
          · exact Or.inl h
          · exact Or.inr (List.mem_cons_of_mem _ h)
        · rintro (h | h)
          · exact Or.inl h
          · rcases List.mem_cons.1 h with rfl | h'
            · exact Or.inl hk
            · exact Or.inr h'
      · rw [if_neg hk, ih]
        simp only [List.mem_append, List.mem_cons, List.mem_singleton]
        tauto

theorem mem_ordered_distinct (l : List Key) (x : Key) :
    x ∈ ordered_distinct l ↔ x ∈ l := by
  rw [ordered_distinct, mem_foldl_distinct]
  simp

theorem get_row_key_ne_nil (mode : KeyMode) (r : Row) :
    get_row_key mode r ≠ [] := by
  cases mode <;> simp [get_row_key]

theorem key_count_pos_of_mem {l : List Key} {a : Key} (h : a ∈ l) :
    0 < l.count a := by
  induction l with
  | nil => simp at h
  | cons x xs ih =>
      rw [List.count_cons]
      rcases List.mem_cons.1 h with rfl | h'
      · simp
      · have := ih h'
        omega

theorem key_count_zero_of_not_mem {l : List Key} {a : Key} (h : a ∉ l) :
    l.count a = 0 := by
  induction l with
  | nil => rfl
  | cons x xs ih =>
      rw [List.count_cons]
      have hne : ¬(x == a) = true := by
        simp only [beq_iff_eq]
        intro hax
        exact h (hax ▸ List.mem_cons_self x xs)
      rw [if_neg hne]
      simp [ih (fun hm => h (List.mem_cons_of_mem _ hm))]

theorem key_count_le_one_nodup {l : List Key}
    (h : ∀ a, l.count a ≤ 1) : l.Pairwise (fun a b => a ≠ b) := by
  induction l with
  | nil => exact List.Pairwise.nil
  | cons x xs ih =>
      refine List.pairwise_cons.2 ⟨?_, ih (fun a => ?_)⟩
      · intro y hy heq
        subst heq
        have h1 := key_count_pos_of_mem hy
        have h2 := h x
        rw [List.count_cons] at h2
        simp only [beq_self_eq_true, if_true] at h2
        omega
      · have := h a
        rw [List.count_cons] at this
        omega

/-- If the duplicate detector returns nothing, the rows' derived keys are
pairwise distinct. -/
theorem detect_nil_nodup {rows : List Row} {mode : KeyMode}
    (h : detect_duplicate_keys rows mode = []) :
    (rows.map (get_row_key mode)).Pairwise (fun a b => a ≠ b) := by
  apply key_count_le_one_nodup
  intro k
  by_contra hc
  push_neg at hc
  have hmem : k ∈ rows.map (get_row_key mode) := by
    by_contra hnm
    rw [key_count_zero_of_not_mem hnm] at hc
    omega
  have hk : k ∈ detect_duplicate_keys rows mode := by
    obtain ⟨r, hr, rfl⟩ := List.mem_map.1 hmem
    simp only [detect_duplicate_keys, List.mem_filter, Bool.and_eq_true,
      decide_eq_true_eq]
    exact ⟨(mem_ordered_distinct _ _).2 hmem, get_row_key_ne_nil mode r, hc⟩
  rw [h] at hk
  simp at hk

/-- Pairwise-distinct row keys select pairwise-distinct index positions. -/
theorem pairwise_matched (mode : KeyMode) (node : Node) (rows : List Row)
    (hnd : (rows.map (get_row_key mode)).Pairwise (fun a b => a ≠ b)) :
    rows.Pairwise (fun r₁ r₂ => ∀ i,
      matched_pos (index_bnobjs node mode) mode r₁ = some i →
      matched_pos (index_bnobjs node mode) mode r₂ ≠ some i) := by
  have hnd' : rows.Pairwise
      (fun r₁ r₂ => get_row_key mode r₁ ≠ get_row_key mode r₂) :=
    List.pairwise_map.mp hnd
  exact hnd'.imp (fun hne i h1 h2 => by
    obtain ⟨_, hd1⟩ := matched_pos_some h1
    obtain ⟨_, hd2⟩ := matched_pos_some h2
    exact hne (dict_get_index_bnobjs_inj hd1 hd2))

/-- Core idempotence of the Selective Updater without `allow_add`: a second
run with the same CSV and configuration on the first run's output changes
nothing, adds nothing, and skips the same count. -/
theorem selective_noadd_idem (mode : KeyMode) (incl : Option (List String))
    (ue : Bool) (node node₁ : Node) (header : List String) (rows : List Row)
    (ch : List Change) (ad sk : Nat)
    (h : update_from_csv mode incl false ue (some node) header rows
      = .ok (node₁, ch, ad, sk)) :
    update_from_csv mode incl false ue (some node₁) header rows
      = .ok (node₁, [], 0, sk) := by
  cases header with
  | nil => simp [update_from_csv] at h
  | cons h₀ hs =>
      have hne : ¬(h₀ :: hs : List String) = [] := by simp
      by_cases hdup : detect_duplicate_keys rows mode = []
      case neg =>
          simp only [update_from_csv, if_neg hne] at h
          rw [if_pos hdup] at h
          exact absurd h (by simp)
      case pos =>
          simp only [update_from_csv, if_neg hne] at h ⊢
          rw [if_neg (by simp [hdup])] at h ⊢
          set fields := fields_to_update incl (h₀ :: hs) with hfields
          set I := index_bnobjs node mode with hI
          simp only [Except.ok.injEq, Prod.mk.injEq] at h
          obtain ⟨hn1, hch1, had1, hsk1⟩ := h
          have hlen : ∀ k i, dict_get I k = some i → i < node.length := by
            intro k i hki
            obtain ⟨b, hb, _, _⟩ := dict_get_index_bnobjs_some (hI ▸ hki)
            exact get?_some_lt hb
          have hnd := detect_nil_nodup hdup
          have hpw := pairwise_matched mode node rows hnd
          have hpwI : rows.Pairwise (fun r₁ r₂ => ∀ i,
              matched_pos I mode r₁ = some i →
              matched_pos I mode r₂ ≠ some i) := by
            rw [hI]; exact hpw
          have hchar := foldl_noadd_node_char mode ue fields I rows
            ⟨node, I, [], 0, 0⟩ rfl hlen hpwI
          simp only [] at hchar
          have hinfo : ∀ j, (node₁.get? j).map (child_info mode)
              = (node.get? j).map (child_info mode) := by
            intro j
            rw [← hn1, hchar j]
            cases hf : rows.find?
                (fun r => matched_pos I mode r == some j) with
            | none => rfl
            | some r =>
                have hpr : matched_pos I mode r = some j := by
                  have := List.find?_some hf
                  simpa using this
                obtain ⟨hek, hd⟩ := matched_pos_some hpr
                obtain ⟨b₀, hb₀, hkey, hkeep⟩ :=
                  dict_get_index_bnobjs_some (hI ▸ hd)
                have hcr : child_record node j = b₀ := by
                  unfold child_record
                  rw [hb₀]
                rw [hb₀, hcr]
                simp only [Option.map_some', child_info, Option.some.injEq,
                  Prod.mk.injEq]
                have hkeq := record_key_update_fields mode ue
                  (key_str mode (get_row_key mode r)) r fields b₀ hkey
                exact ⟨hkeq, index_keep_congr mode hkeq⟩
          have hIeq : index_bnobjs node₁ mode = I := by
            rw [hI]
            exact index_from_congr mode node₁ node hinfo 0
          have hsymm : Symmetric (fun r₁ r₂ : Row => ∀ i,
              matched_pos I mode r₁ = some i →
              matched_pos I mode r₂ ≠ some i) :=
            fun x y hxy i hmy hmx => hxy i hmx hmy
          have hforall := List.Pairwise.forall hsymm hpwI
          have hfix : ∀ r ∈ rows, ∀ i, matched_pos I mode r = some i →
              node₁.get? i = some (Child.bnobj (child_record node₁ i)) ∧
              update_fields ue (key_str mode (get_row_key mode r)) r fields
                (child_record node₁ i) = (child_record node₁ i, []) := by
            intro r hr i hm
            have hfind : rows.find?
                (fun r' => matched_pos I mode r' == some i) = some r := by
              apply find?_eq_of_unique hr (by simp [hm])
              intro r' hr' hp'
              have hm' : matched_pos I mode r' = some i := by simpa using hp'
              by_contra hne'
              exact (hforall hr' hr hne') i hm' hm
            have hni : node₁.get? i = some (Child.bnobj (update_fields ue
                (key_str mode (get_row_key mode r)) r fields
                (child_record node i)).1) := by
              rw [← hn1, hchar i, hfind]
            have hcr : child_record node₁ i = (update_fields ue
                (key_str mode (get_row_key mode r)) r fields
                (child_record node i)).1 := by
              unfold child_record
              rw [hni]
              rfl
            constructor
            · rw [hcr]
              exact hni
            · rw [hcr]
              exact update_fields_idem ue
                (key_str mode (get_row_key mode r)) r fields
                (child_record node i)
          rw [hIeq]
          have hnoop := foldl_noop mode ue fields I node₁ rows
            ⟨node₁, I, [], 0, 0⟩ rfl rfl rfl rfl hfix
          have hskip2 := foldl_noadd_skipped mode ue fields rows
            ⟨node₁, I, [], 0, 0⟩
          have hskip1 := foldl_noadd_skipped mode ue fields rows
            ⟨node, I, [], 0, 0⟩
          rw [hsk1] at hskip1
          rw [hnoop.1, hnoop.2.1, hnoop.2.2, hskip2, ← hskip1]

/-! ### Frame properties of the row loop -/

/-- One loop step: index bindings keep pointing at records, non-record
children are untouched, record children are only changed on fields of the
update list, new children are only records appended past the original
length, and every new change entry names a field of the update list. -/
theorem process_row_frame (mode : KeyMode) (aa ue : Bool)
    (fields : List String) (st : LoopState) (r : Row)
    (hok : ∀ k i, dict_get st.idx k = some i →
      ∃ b, st.node.get? i = some (Child.bnobj b)) :
    (∀ k i, dict_get (process_row mode aa ue fields st r).idx k = some i →
      ∃ b, (process_row mode aa ue fields st r).node.get? i
        = some (Child.bnobj b)) ∧
    st.node.length ≤ (process_row mode aa ue fields st r).node.length ∧
    (∀ j x, st.node.get? j = some (Child.other x) →
      (process_row mode aa ue fields st r).node.get? j
        = some (Child.other x)) ∧
    (∀ j b, st.node.get? j = some (Child.bnobj b) →
      ∃ b', (process_row mode aa ue fields st r).node.get? j
          = some (Child.bnobj b') ∧
        ∀ t, t ∉ fields → findtext b' t = findtext b t) ∧
    (∀ j c, st.node.length ≤ j →
      (process_row mode aa ue fields st r).node.get? j = some c →
      is_bnobj c = true) ∧
    (∃ ext, (process_row mode aa ue fields st r).changes
        = st.changes ++ ext ∧ ∀ c ∈ ext, c.2.1 ∈ fields) := by
  have htriv : ∀ st' : LoopState, st'.node = st.node → st'.idx = st.idx →
      st'.changes = st.changes →
      (∀ k i, dict_get st'.idx k = some i →
        ∃ b, st'.node.get? i = some (Child.bnobj b)) ∧
      st.node.length ≤ st'.node.length ∧
      (∀ j x, st.node.get? j = some (Child.other x) →
        st'.node.get? j = some (Child.other x)) ∧
      (∀ j b, st.node.get? j = some (Child.bnobj b) →
        ∃ b', st'.node.get? j = some (Child.bnobj b') ∧
          ∀ t, t ∉ fields → findtext b' t = findtext b t) ∧
      (∀ j c, st.node.length ≤ j → st'.node.get? j = some c →
        is_bnobj c = true) ∧
      (∃ ext, st'.changes = st.changes ++ ext ∧
        ∀ c ∈ ext, c.2.1 ∈ fields) := by
    intro st' hn hi hc
    rw [hn, hi, hc]
    refine ⟨hok, Nat.le_refl _, fun j x hx => hx,
      fun j b hb => ⟨b, hb, fun t _ => rfl⟩, fun j c hj hc' => ?_,
      ⟨[], by simp, by simp⟩⟩
    have : st.node.get? j = none := List.get?_eq_none.2 hj
    rw [this] at hc'
    exact Option.noConfusion hc'
  cases hek : key_empty (get_row_key mode r) with
  | true =>
      rw [process_row_empty_key hek]
      exact htriv _ rfl rfl rfl
  | false =>
      rcases hd : dict_get st.idx (get_row_key mode r) with _ | i
      · cases aa with
        | false =>
            rw [process_row_notfound_skip hek hd]
            exact htriv _ rfl rfl rfl
        | true =>
            rw [process_row_notfound_add hek hd]
            set b' := (update_fields ue (key_str mode (get_row_key mode r))
              (if mode = KeyMode.vaddr_dbaddr ∧ row_get r "Name" = "" then
                row_set r "Name" ("BNObj_" ++ row_get r "VAddr" ++ "_"
                  ++ row_get r "DBAddr")
              else r) fields []) with hb'
            refine ⟨?_, ?_, ?_, ?_, ?_, ?_⟩
            · intro k i hki
              rw [dict_get_insert] at hki
              by_cases hkk : get_row_key mode r = k
              · rw [if_pos hkk] at hki
                obtain rfl : st.node.length = i := by injection hki
                refine ⟨b'.1, ?_⟩
                show (st.node ++ [Child.bnobj b'.1]).get? st.node.length
                  = some (Child.bnobj b'.1)
                rw [List.get?_concat_length]
              · rw [if_neg hkk] at hki
                obtain ⟨b, hb⟩ := hok k i hki
                refine ⟨b, ?_⟩
                show (st.node ++ [Child.bnobj b'.1]).get? i
                  = some (Child.bnobj b)
                rw [List.get?_append (get?_some_lt hb)]
                exact hb
            · show st.node.length ≤ (st.node ++ [Child.bnobj b'.1]).length
              simp
            · intro j x hx
              show (st.node ++ [Child.bnobj b'.1]).get? j
                = some (Child.other x)
              rw [List.get?_append (get?_some_lt hx)]
              exact hx
            · intro j b hb
              refine ⟨b, ?_, fun t _ => rfl⟩
              show (st.node ++ [Child.bnobj b'.1]).get? j
                = some (Child.bnobj b)
              rw [List.get?_append (get?_some_lt hb)]
              exact hb
            · intro j c hj hc'
              show is_bnobj c = true
              rcases Nat.eq_or_lt_of_le hj with rfl | hlt
              · rw [show ((st.node ++ [Child.bnobj b'.1]).get? st.node.length)
                    = some (Child.bnobj b'.1) from List.get?_concat_length _ _]
                  at hc'
                obtain rfl : Child.bnobj b'.1 = c := by injection hc'
                rfl
              · have : (st.node ++ [Child.bnobj b'.1]).get? j = none := by
                  apply List.get?_eq_none.2
                  simp only [List.length_append, List.length_singleton]
                  omega
                rw [this] at hc'
                exact Option.noConfusion hc'
            · exact ⟨b'.2, rfl, fun c hc =>
                (update_fields_changes _ _ _ _ _ c hc).2⟩
      · obtain ⟨b₀, hb₀⟩ := hok _ _ hd
        have hilt : i < st.node.length := get?_some_lt hb₀
        have hcr : child_record st.node i = b₀ := by
          unfold child_record
          rw [hb₀]
        rw [process_row_found hek hd]
        set bu := update_fields ue (key_str mode (get_row_key mode r)) r
          fields (child_record st.node i) with hbu
        refine ⟨?_, ?_, ?_, ?_, ?_, ?_⟩
        · intro k i' hki
          obtain ⟨b, hb⟩ := hok k i' hki
          by_cases hii : i' = i
          · subst hii
            exact ⟨bu.1, List.get?_set_eq_of_lt _ hilt⟩
          · refine ⟨b, ?_⟩
            show (st.node.set i (Child.bnobj bu.1)).get? i'
              = some (Child.bnobj b)
            rw [List.get?_set_ne _ _ (fun h => hii h.symm)]
            exact hb
        · show st.node.length ≤ (st.node.set i (Child.bnobj bu.1)).length
          simp
        · intro j x hx
          have hji : i ≠ j := by
            intro h
            rw [← h, hb₀] at hx
            simp at hx
          show (st.node.set i (Child.bnobj bu.1)).get? j
            = some (Child.other x)
          rw [List.get?_set_ne _ _ hji]
          exact hx
        · intro j b hb
          by_cases hji : j = i
          · subst hji
            have hbb : b₀ = b := by
              rw [hb₀] at hb
              simpa using hb
            refine ⟨bu.1, List.get?_set_eq_of_lt _ hilt, fun t ht => ?_⟩
            rw [hbu, hcr, hbb]
            exact findtext_update_fields_not_mem ue _ r fields b ht
          · refine ⟨b, ?_, fun t _ => rfl⟩
            show (st.node.set i (Child.bnobj bu.1)).get? j
              = some (Child.bnobj b)
            rw [List.get?_set_ne _ _ (fun h => hji h.symm)]
            exact hb
        · intro j c hj hc'
          have hji : i ≠ j := by omega
          rw [show (st.node.set i (Child.bnobj bu.1)).get? j
              = st.node.get? j from List.get?_set_ne _ _ hji] at hc'
          have : st.node.get? j = none := List.get?_eq_none.2 hj
          rw [this] at hc'
          exact Option.noConfusion hc'
        · exact ⟨bu.2, rfl, fun c hc =>
            (update_fields_changes _ _ _ _ _ c hc).2⟩

/-- The whole row loop: frame properties composed over every row. -/
theorem foldl_frame (mode : KeyMode) (aa ue : Bool) (fields : List String)
    (rows : List Row) (st : LoopState)
    (hok : ∀ k i, dict_get st.idx k = some i →
      ∃ b, st.node.get? i = some (Child.bnobj b)) :
    (∀ k i, dict_get (rows.foldl (process_row mode aa ue fields) st).idx k
        = some i →
      ∃ b, (rows.foldl (process_row mode aa ue fields) st).node.get? i
        = some (Child.bnobj b)) ∧
    st.node.length
      ≤ (rows.foldl (process_row mode aa ue fields) st).node.length ∧
    (∀ j x, st.node.get? j = some (Child.other x) →
      (rows.foldl (process_row mode aa ue fields) st).node.get? j
        = some (Child.other x)) ∧
    (∀ j b, st.node.get? j = some (Child.bnobj b) →
      ∃ b', (rows.foldl (process_row mode aa ue fields) st).node.get? j
          = some (Child.bnobj b') ∧
        ∀ t, t ∉ fields → findtext b' t = findtext b t) ∧
    (∀ j c, st.node.length ≤ j →
      (rows.foldl (process_row mode aa ue fields) st).node.get? j = some c →
      is_bnobj c = true) ∧
    (∃ ext, (rows.foldl (process_row mode aa ue fields) st).changes
        = st.changes ++ ext ∧ ∀ c ∈ ext, c.2.1 ∈ fields) := by
  induction rows generalizing st with
  | nil =>
      refine ⟨hok, Nat.le_refl _, fun j x hx => hx,
        fun j b hb => ⟨b, hb, fun t _ => rfl⟩, fun j c hj hc' => ?_,
        ⟨[], by simp, by simp⟩⟩
      rw [List.foldl_nil] at hc'
      have : st.node.get? j = none := List.get?_eq_none.2 hj
      rw [this] at hc'
      exact Option.noConfusion hc'
  | cons r rest ih =>
      rw [List.foldl_cons]
      obtain ⟨sok, slen, sother, sbn, ssuf, sext, hsext, hsext2⟩ :=
        process_row_frame mode aa ue fields st r hok
      obtain ⟨fok, flen, fother, fbn, fsuf, fext, hfext, hfext2⟩ :=
        ih (process_row mode aa ue fields st r) sok
      refine ⟨fok, Nat.le_trans slen flen,
        fun j x hx => fother j x (sother j x hx), ?_, ?_, ?_⟩
      · intro j b hb
        obtain ⟨b₁, hb₁, hfr₁⟩ := sbn j b hb
        obtain ⟨b₂, hb₂, hfr₂⟩ := fbn j b₁ hb₁
        exact ⟨b₂, hb₂, fun t ht => (hfr₂ t ht).trans (hfr₁ t ht)⟩
      · intro j c hj hc'
        by_cases hj2 : (process_row mode aa ue fields st r).node.length ≤ j
        · exact fsuf j c hj2 hc'
        · push_neg at hj2
          rcases hc₁ : (process_row mode aa ue fields st r).node.get? j
            with _ | c₁
          · rw [List.get?_eq_none] at hc₁
            omega
          · have hbn1 : is_bnobj c₁ = true := ssuf j c₁ hj hc₁
            cases c₁ with
            | other x => simp [is_bnobj] at hbn1
            | bnobj b₁ =>
                obtain ⟨b₂, hb₂, _⟩ := fbn j b₁ hc₁
                rw [hb₂] at hc'
                obtain rfl : Child.bnobj b₂ = c := by injection hc'
                rfl
      · exact ⟨sext ++ fext, by rw [hfext, hsext, List.append_assoc],
          fun c hc => by
            rcases List.mem_append.1 hc with h | h
            · exact hsext2 c h
            · exact hfext2 c h⟩

/-! ### Unpacking a successful Selective run -/

theorem update_from_csv_ok {mode : KeyMode} {incl : Option (List String)}
    {aa ue : Bool} {node : Node} {header : List String} {rows : List Row}
    {out : Node × List Change × Nat × Nat}
    (h : update_from_csv mode incl aa ue (some node) header rows = .ok out) :
    header ≠ [] ∧ detect_duplicate_keys rows mode = [] ∧
      out = ((rows.foldl (process_row mode aa ue
            (fields_to_update incl header))
            ⟨node, index_bnobjs node mode, [], 0, 0⟩).node,
        (rows.foldl (process_row mode aa ue (fields_to_update incl header))
            ⟨node, index_bnobjs node mode, [], 0, 0⟩).changes,
        (rows.foldl (process_row mode aa ue (fields_to_update incl header))
            ⟨node, index_bnobjs node mode, [], 0, 0⟩).added,
        (rows.foldl (process_row mode aa ue (fields_to_update incl header))
            ⟨node, index_bnobjs node mode, [], 0, 0⟩).skipped) := by
  cases header with
  | nil => simp [update_from_csv] at h
  | cons h₀ hs =>
      have hne : ¬(h₀ :: hs : List String) = [] := by simp
      by_cases hdup : detect_duplicate_keys rows mode = []
      · simp only [update_from_csv, if_neg hne] at h
        rw [if_neg (by simp [hdup])] at h
        refine ⟨by simp, hdup, ?_⟩
        injection h with h'
        exact h'.symm
      · simp only [update_from_csv, if_neg hne] at h
        rw [if_pos hdup] at h
        exact absurd h (by simp)

/-! ### The Full Replacer's record creation -/

theorem create_fields_tags_all (r : Row) (header : List String) :
    (create_fields r true header).map Prod.fst
      = (header.map strip).filter (fun t => t != "") := by
  induction header with
  | nil => rfl
  | cons col rest ih =>
      simp only [create_fields, List.map_cons, List.filter_cons]
      by_cases hc : strip col = ""
      · rw [if_pos hc, ih]
        simp [hc]
      · rw [if_neg hc,
          if_neg (show ¬(true = false ∧ row_get r (strip col) = "") by simp)]
        simp only [List.map_cons, ih]
        simp [hc]

theorem create_fields_tags_noempty (r : Row) (header : List String) :
    (create_fields r false header).map Prod.fst
      = ((header.map strip).filter (fun t => t != "")).filter
          (fun t => row_get r t != "") := by
  induction header with
  | nil => rfl
  | cons col rest ih =>
      simp only [create_fields, List.map_cons, List.filter_cons]
      by_cases hc : strip col = ""
      · rw [if_pos hc, ih]
        simp [hc]
      · rw [if_neg hc]
        by_cases hv : row_get r (strip col) = ""
        · rw [if_pos (by simp [hv]), ih]
          simp [hc, hv]
        · rw [if_neg (by simp [hv])]
          simp only [List.map_cons, ih]
          simp [hc, hv]

theorem create_fields_values (r : Row) (we : Bool) (header : List String) :
    ∀ p ∈ create_fields r we header, p.2 = row_get r p.1 := by
  induction header with
  | nil => simp [create_fields]
  | cons col rest ih =>
      simp only [create_fields]
      by_cases hc : strip col = ""
      · rw [if_pos hc]
        exact ih
      · rw [if_neg hc]
        by_cases hv : we = false ∧ row_get r (strip col) = ""
        · rw [if_pos hv]
          exact ih
        · rw [if_neg hv]
          intro p hp
          rcases List.mem_cons.1 hp with rfl | hp'
          · rfl
          · exact ih p hp'

/-! ### Counting helpers and the synthesized name -/

theorem countP_skip_split (mode : KeyMode) (I : List (Key × Nat))
    (rows : List Row) :
    rows.countP (fun r => key_empty (get_row_key mode r)
        || (dict_get I (get_row_key mode r)).isNone)
      = rows.countP (fun r => key_empty (get_row_key mode r))
        + rows.countP (fun r => !key_empty (get_row_key mode r)
            && (dict_get I (get_row_key mode r)).isNone) := by
  induction rows with
  | nil => rfl
  | cons r rest ih =>
      simp only [List.countP_cons]
      cases hek : key_empty (get_row_key mode r) <;> simp [hek, ih] <;> omega

theorem bnobj_name_ne_empty (v d : String) :
    ("BNObj_" ++ v ++ "_" ++ d : String) ≠ "" := by
  intro h
  have hlen := congrArg String.length h
  simp only [String.length_append] at hlen
  have h6 : ("BNObj_" : String).length = 6 := rfl
  have h1 : ("_" : String).length = 1 := rfl
  have h0 : ("" : String).length = 0 := rfl
  rw [h6, h1, h0] at hlen
  omega

/-! ### The duplicate-keys message -/

theorem str_includes_wrap (x y : String) {a b : String}
    (h : str_includes a b) : str_includes (x ++ a ++ y) b := by
  obtain ⟨p, q, rfl⟩ := h
  refine ⟨x ++ p, q ++ y, ?_⟩
  simp only [String.append_assoc]

theorem str_includes_self (a : String) : str_includes a a :=
  ⟨"", "", by rw [String.empty_append, String.append_empty]⟩

theorem repr_key_list_includes {ks : List Key} {k : Key} (h : k ∈ ks) :
    str_includes (repr_key_list ks) (repr_key k) := by
  induction ks with
  | nil => simp at h
  | cons k' rest ih =>
      rcases List.mem_cons.1 h with rfl | h'
      · cases rest with
        | nil => exact str_includes_self _
        | cons k₂ rest₂ =>
            refine ⟨"", ", " ++ repr_key_list (k₂ :: rest₂), ?_⟩
            rw [String.empty_append]
            show repr_key k ++ ", " ++ repr_key_list (k₂ :: rest₂)
              = repr_key k ++ (", " ++ repr_key_list (k₂ :: rest₂))
            rw [String.append_assoc]
      · cases rest with
        | nil => simp at h'
        | cons k₂ rest₂ =>
            obtain ⟨p, q, hpq⟩ := ih h'
            refine ⟨repr_key k' ++ ", " ++ p, q, ?_⟩
            show repr_key k' ++ ", " ++ repr_key_list (k₂ :: rest₂)
              = repr_key k' ++ ", " ++ p ++ repr_key k ++ q
            rw [hpq]
            simp only [String.append_assoc]

/-- The message shown for duplicate keys, split at its key listing. -/
theorem dup_message_eq (mode : KeyMode) (dups : List Key) :
    dup_message mode dups
      = ("CSV contains duplicate keys for key_mode=" ++ key_mode_str mode
          ++ ": " ++ "[")
        ++ repr_key_list (dups.take 5)
        ++ ("]" ++ " "
          ++ (if 5 < dups.length then "(and more...)" else "")) := by
  rw [dup_message, repr_keys]
  simp only [String.append_assoc]

theorem dup_message_includes_key (mode : KeyMode) (dups : List Key)
    (k : Key) (hk : k ∈ dups.take 5) :
    str_includes (dup_message mode dups) (repr_key k) := by
  rw [dup_message_eq]
  exact str_includes_wrap _ _ (repr_key_list_includes hk)

theorem dup_message_includes_marker (mode : KeyMode) (dups : List Key)
    (h : 5 < dups.length) :
    str_includes (dup_message mode dups) "(and more...)" := by
  rw [dup_message, if_pos h]
  exact ⟨"CSV contains duplicate keys for key_mode=" ++ key_mode_str mode
    ++ ": " ++ repr_keys (dups.take 5) ++ " ", "",
    by rw [String.append_empty]⟩

/-! ### Claim theorems -/

/-- C4: every fatal condition — container path not found, CSV missing a
header, duplicate non-empty CSV keys in Selective mode, zero CSV data rows in
Full Replace mode — makes the run return an error.  In this pure embedding an
error result carries no rewritten container, so the in-memory tree is
untouched and no output file is written: in particular a Full Replace run on
a CSV with a header but zero data rows aborts before any Record is removed. -/
theorem C4_fatal_before_mutation (mode : KeyMode)
    (incl : Option (List String)) (aa ue we : Bool) (node : Node)
    (rows : List Row) (h₀ : String) (hs : List String) :
    update_from_csv mode incl aa ue none (h₀ :: hs) rows
      = .error RunError.structureError ∧
    update_from_csv mode incl aa ue (some node) [] rows
      = .error (RunError.formatError
          "CSV has no header. Expecting at least 'Name' or 'VAddr,DBAddr'.") ∧
    (∀ k : Key, key_empty k = false →
      1 < (rows.map (get_row_key mode)).count k →
      update_from_csv mode incl aa ue (some node) (h₀ :: hs) rows
        = .error (RunError.validationError
            (dup_message mode (detect_duplicate_keys rows mode)))) ∧
    replace_bnobj_from_csv none (h₀ :: hs) rows we
      = .error RunError.structureError ∧
    replace_bnobj_from_csv (some node) [] rows we
      = .error (RunError.formatError "CSV has no header.") ∧
    replace_bnobj_from_csv (some node) (h₀ :: hs) [] we
      = .error (RunError.validationError
          "CSV contains no data rows; refusing to wipe BNObj to empty.") := by
  refine ⟨rfl, by simp [update_from_csv], ?_, rfl,
    by simp [replace_bnobj_from_csv], by simp [replace_bnobj_from_csv]⟩
  intro k hke hcount
  have hmem : k ∈ rows.map (get_row_key mode) := by
    by_contra hnm
    rw [key_count_zero_of_not_mem hnm] at hcount
    omega
  have hknil : k ≠ [] := by
    intro hnil
    rw [hnil] at hke
    simp [key_empty] at hke
  have hkd : k ∈ detect_duplicate_keys rows mode := by
    simp only [detect_duplicate_keys, List.mem_filter, Bool.and_eq_true,
      decide_eq_true_eq]
    exact ⟨(mem_ordered_distinct _ _).2 hmem, hknil, hcount⟩
  have hdne : detect_duplicate_keys rows mode ≠ [] :=
    List.ne_nil_of_mem hkd
  simp only [update_from_csv, if_neg (show ¬(h₀ :: hs : List String) = []
    by simp)]
  rw [if_pos hdne]

/-- C4 witness: concrete duplicate-key and zero-row aborts. -/
theorem C4_witness :
    update_from_csv KeyMode.name none false false (some [Child.other 3])
        ["Name"] [[("Name", "A")], [("Name", "A")]]
      = .error (RunError.validationError
          (dup_message KeyMode.name (detect_duplicate_keys
            [[("Name", "A")], [("Name", "A")]] KeyMode.name))) ∧
    replace_bnobj_from_csv (some [Child.other 3]) ["Name"] [] true
      = .error (RunError.validationError
          "CSV contains no data rows; refusing to wipe BNObj to empty.") := by
  have h := C4_fatal_before_mutation KeyMode.name none false false true
    [Child.other 3] [[("Name", "A")], [("Name", "A")]] "Name" []
  exact ⟨h.2.2.1 ["A"] (by decide) (by decide), h.2.2.2.2.2⟩

/-- C5 counterexample: a header column whose name is empty does not become a
field of the created Record, so the Record's fields are not exactly the CSV
header's columns. -/
theorem C5_counterexample :
    create_bnobj_from_row ["Name", ""] [("Name", "a"), ("", "b")] true
      = [("Name", "a")] ∧
    (create_bnobj_from_row ["Name", ""] [("Name", "a"), ("", "b")] true).map
        Prod.fst ≠ ["Name", ""] := by
  exact ⟨by decide, by decide⟩

/-- C5 (amended): in the Full Replacer each new Record's fields are exactly
the header's columns with non-empty trimmed names, in header order; with
`writeEmpty` false the columns whose row value is empty are also omitted;
every written field carries the row's value for its column; and the records
are appended to the cleared container one per CSV row, in row order. -/
theorem C5_amended_fields (header : List String) (r : Row) :
    (create_bnobj_from_row header r true).map Prod.fst
      = (header.map strip).filter (fun t => t != "") ∧
    (create_bnobj_from_row header r false).map Prod.fst
      = ((header.map strip).filter (fun t => t != "")).filter
          (fun t => row_get r t != "") ∧
    (∀ we : Bool, ∀ p ∈ create_bnobj_from_row header r we,
      p.2 = row_get r p.1) ∧
    (∀ (node : Node) (rows : List Row) (we : Bool) (h₀ : String)
        (hs : List String), rows ≠ [] →
      replace_bnobj_from_csv (some node) (h₀ :: hs) rows we
        = .ok (node.filter (fun c => !is_bnobj c)
            ++ rows.map (fun r' => Child.bnobj
                (create_bnobj_from_row (h₀ :: hs) r' we)),
          (node.filter is_bnobj).length, rows.length)) := by
  refine ⟨create_fields_tags_all r header,
    create_fields_tags_noempty r header,
    fun we => create_fields_values r we header, ?_⟩
  intro node rows we h₀ hs hrows
  simp only [replace_bnobj_from_csv,
    if_neg (show ¬(h₀ :: hs : List String) = [] by simp), if_neg hrows]
  rfl

/-- C5 witness: concrete two-column replacement with a blank cell omitted. -/
theorem C5_witness :
    (create_bnobj_from_row ["Name", "Units"] [("Name", "a"), ("Units", "")]
        false).map Prod.fst = ["Name"] ∧
    replace_bnobj_from_csv (some [Child.other 5, Child.bnobj [("Name", "x")]])
        ["Name", "Units"] [[("Name", "a"), ("Units", "")]] false
      = .ok ([Child.other 5,
          Child.bnobj (create_bnobj_from_row ["Name", "Units"]
            [("Name", "a"), ("Units", "")] false)], 1, 1) := by
  have h := C5_amended_fields ["Name", "Units"] [("Name", "a"), ("Units", "")]
  constructor
  · rw [h.2.1]
    decide
  · have h4 := h.2.2.2 [Child.other 5, Child.bnobj [("Name", "x")]]
      [[("Name", "a"), ("Units", "")]] false "Name" ["Units"] (by decide)
    rw [h4]
    decide

/-- C6: the record index maps a non-empty key to the *last* direct record
child (in document order) whose own trimmed field values derive that key;
records whose derived key is empty are never indexed, and a shadowed earlier
record is unreachable through the index. -/
theorem C6_index_last_wins (node : Node) (mode : KeyMode) (k : Key) :
    (key_empty k = true → dict_get (index_bnobjs node mode) k = none) ∧
    (key_empty k = false → ∀ i,
      dict_get (index_bnobjs node mode) k = some i ↔
        (∃ b, node.get? i = some (Child.bnobj b) ∧ record_key mode b = k) ∧
        ∀ j b', i < j → node.get? j = some (Child.bnobj b') →
          record_key mode b' ≠ k) := by
  constructor
  · exact index_skips_empty mode node k
  · intro hk i
    rw [index_bnobjs, dict_get_index_from]
    constructor
    · rintro ⟨j, hij, ⟨b, hb, hkey, hkeep⟩, hlast⟩
      obtain rfl : i = j := by omega
      refine ⟨⟨b, hb, hkey⟩, ?_⟩
      intro j b' hij' hb' hkey'
      exact hlast j hij' ⟨b', hb', hkey',
        by rw [index_keep_iff, hkey']; exact hk⟩
    · rintro ⟨⟨b, hb, hkey⟩, hlast⟩
      refine ⟨i, by omega, ⟨b, hb, hkey,
        by rw [index_keep_iff, hkey]; exact hk⟩, ?_⟩
      intro j' hj' hkpt
      obtain ⟨b', hb', hkey', _⟩ := hkpt
      exact hlast j' b' hj' hb' hkey'

/-- C6 witness: with two records deriving key `X`, the index resolves `X` to
the later one (position 2, not 0), and an all-blank key is not indexed. -/
theorem C6_witness :
    ((∃ b, ([Child.bnobj [("Name", "X"), ("Units", "1")], Child.other 7,
        Child.bnobj [("Name", "X")], Child.bnobj [("Name", "")]] :
          Node).get? 2
        = some (Child.bnobj b) ∧ record_key KeyMode.name b = ["X"]) ∧
      ∀ j b', 2 < j →
        ([Child.bnobj [("Name", "X"), ("Units", "1")], Child.other 7,
          Child.bnobj [("Name", "X")], Child.bnobj [("Name", "")]] :
            Node).get? j = some (Child.bnobj b') →
        record_key KeyMode.name b' ≠ ["X"]) ∧
    dict_get (index_bnobjs [Child.bnobj [("Name", "X"), ("Units", "1")],
        Child.other 7, Child.bnobj [("Name", "X")],
        Child.bnobj [("Name", "")]] KeyMode.name) [""] = none := by
  constructor
  · exact ((C6_index_last_wins _ KeyMode.name ["X"]).2 (by decide) 2).mp
      (by decide)
  · exact (C6_index_last_wins _ KeyMode.name [""]).1 (by decide)

/-- C1 counterexample: composite key, `allowAdd` on, row with no Name value
and a header without a Name column.  Exactly one Record is created, but it
carries no Name field at all — the synthesized name is written into the row
only, and `Name` is not among the fields to update. -/
theorem C1_counterexample :
    update_from_csv KeyMode.vaddr_dbaddr none true false (some [])
        ["VAddr", "DBAddr"] [[("VAddr", "40001"), ("DBAddr", "0")]]
      = .ok ([Child.bnobj [("VAddr", "40001"), ("DBAddr", "0")]],
          [("40001+0", "VAddr", "", "40001"), ("40001+0", "DBAddr", "", "0")],
          1, 0) ∧
    findtext [("VAddr", "40001"), ("DBAddr", "0")] "Name"
      ≠ "BNObj_40001_0" := by
  exact ⟨by decide, by decide⟩

/-- C1 (amended): in composite key mode with `allowAdd`, a row whose key is
absent from the index and whose Name value is empty or missing creates
exactly one new Record appended to the Container, and *when `Name` is among
the fields to update* (e.g. the CSV header lists Name and no include-list is
given) that Record carries a Name field `BNObj_<VAddr>_<DBAddr>` built from
the row's (already trimmed) VAddr and DBAddr values. -/
theorem C1_amended_add_synthesizes_name (ue : Bool) (fields : List String)
    (st : LoopState) (r : Row)
    (hname : row_get r "Name" = "")
    (hne : key_empty (get_row_key KeyMode.vaddr_dbaddr r) = false)
    (hmiss : dict_get st.idx (get_row_key KeyMode.vaddr_dbaddr r) = none)
    (hfld : "Name" ∈ fields) :
    ∃ b', (process_row KeyMode.vaddr_dbaddr true ue fields st r).node
        = st.node ++ [Child.bnobj b'] ∧
      (process_row KeyMode.vaddr_dbaddr true ue fields st r).added
        = st.added + 1 ∧
      findtext b' "Name"
        = "BNObj_" ++ row_get r "VAddr" ++ "_" ++ row_get r "DBAddr" := by
  rw [process_row_notfound_add hne hmiss]
  refine ⟨_, rfl, rfl, ?_⟩
  rw [if_pos ⟨rfl, hname⟩]
  rw [findtext_update_fields]
  rw [if_pos ?_]
  · exact row_get_set_self r "Name" _
  · refine ⟨hfld, ?_⟩
    rintro ⟨-, h2⟩
    rw [row_get_set_self r "Name" _] at h2
    exact bnobj_name_ne_empty _ _ h2

/-- C1 witness: the spec's own example with Name in the header. -/
theorem C1_witness :
    ∃ b', (process_row KeyMode.vaddr_dbaddr true false ["Name"]
          ⟨[], [], [], 0, 0⟩ [("VAddr", "40001"), ("DBAddr", "0")]).node
        = [Child.bnobj b'] ∧
      (process_row KeyMode.vaddr_dbaddr true false ["Name"]
          ⟨[], [], [], 0, 0⟩ [("VAddr", "40001"), ("DBAddr", "0")]).added
        = 1 ∧
      findtext b' "Name" = "BNObj_40001_0" := by
  obtain ⟨b', h1, h2, h3⟩ := C1_amended_add_synthesizes_name false ["Name"]
    ⟨[], [], [], 0, 0⟩ [("VAddr", "40001"), ("DBAddr", "0")]
    (by decide) (by decide) (by decide) (by decide)
  refine ⟨b', ?_, ?_, ?_⟩
  · rw [h1]
    rfl
  · rw [h2]
  · rw [h3]
    decide

/-- C2: the duplicate detector's guard `if k` tests the truthiness of the key
*tuple*, which is never false, so keys all of whose components are empty
*are* returned when they occur twice, and two rows with all key columns blank
abort the Selective run with the duplicate-key fatal error — contradicting
the documented behaviour that empty keys are excluded. -/
theorem C2_empty_key_dup_eval :
    detect_duplicate_keys [[("Name", "")], [("Name", "")]] KeyMode.name
      = [[""]] ∧
    key_empty [""] = true ∧
    update_from_csv KeyMode.name none false false (some []) ["Name"]
        [[("Name", "")], [("Name", "")]]
      = .error (RunError.validationError
          (dup_message KeyMode.name [[""]])) := by
  exact ⟨by decide, by decide, by decide⟩

/-- C3 counterexample: with header `["Name","Units"]` and no include-list,
the Name field of a matched Record *is* modified when its stored text has
surrounding whitespace — Name is not excluded from the update set. -/
theorem C3_counterexample :
    update_from_csv KeyMode.name none false false
        (some [Child.bnobj [("Name", " A "), ("Units", "u"), ("DSize", "16")]])
        ["Name", "Units"] [[("Name", "A"), ("Units", "u")]]
      = .ok ([Child.bnobj [("Name", "A"), ("Units", "u"), ("DSize", "16")]],
          [("A", "Name", " A ", "A")], 0, 0) ∧
    findtext [("Name", "A"), ("Units", "u"), ("DSize", "16")] "Name"
      ≠ findtext [("Name", " A "), ("Units", "u"), ("DSize", "16")]
          "Name" := by
  exact ⟨by decide, by decide⟩

/-- C3 (amended): with header `["Name","Units"]` and no include-list under
Name key mode the update set is `["Name","Units"]` — the match key is *not*
excluded — and only those two fields are ever written: every change entry
names Name or Units, and any other field of any original record (DSize,
Mask, …) keeps its text. -/
theorem C3_amended_field_scoping (aa ue : Bool) (node node' : Node)
    (rows : List Row) (ch : List Change) (ad sk : Nat)
    (h : update_from_csv KeyMode.name none aa ue (some node)
        ["Name", "Units"] rows = .ok (node', ch, ad, sk)) :
    fields_to_update none ["Name", "Units"] = ["Name", "Units"] ∧
    (∀ c ∈ ch, c.2.1 = "Name" ∨ c.2.1 = "Units") ∧
    (∀ j b b', node.get? j = some (Child.bnobj b) →
      node'.get? j = some (Child.bnobj b') →
      ∀ t, t ≠ "Name" → t ≠ "Units" → findtext b' t = findtext b t) := by
  obtain ⟨-, -, hout⟩ := update_from_csv_ok h
  have hfields : fields_to_update none ["Name", "Units"]
      = ["Name", "Units"] := by decide
  rw [hfields] at hout
  simp only [Prod.mk.injEq] at hout
  obtain ⟨hn, hc, -, -⟩ := hout
  have hframe := foldl_frame KeyMode.name aa ue ["Name", "Units"] rows
    ⟨node, index_bnobjs node KeyMode.name, [], 0, 0⟩
    (fun k i hki => (dict_get_index_bnobjs_some hki).imp
      (fun b hb => hb.1))
  obtain ⟨-, -, -, hbn, -, ext, hextEq, hextTags⟩ := hframe
  refine ⟨hfields, ?_, ?_⟩
  · intro c hc'
    rw [hc, hextEq] at hc'
    have := hextTags c (by simpa using hc')
    simpa using this
  · intro j b b' hb hb'
    obtain ⟨b'', hget, hfr⟩ := hbn j b hb
    rw [hn, hget] at hb'
    obtain rfl : b'' = b' := by simpa using hb'
    intro t ht1 ht2
    exact hfr t (by simp [ht1, ht2])

/-- C3 witness: a concrete run where only Units changes and DSize survives. -/
theorem C3_witness :
    fields_to_update none ["Name", "Units"] = ["Name", "Units"] ∧
    (∀ c ∈ [("A", "Units", "u", "v")], c.2.1 = "Name" ∨ c.2.1 = "Units") ∧
    (∀ j b b',
      ([Child.bnobj [("Name", "A"), ("Units", "u"), ("DSize", "16")]] :
          Node).get? j = some (Child.bnobj b) →
      ([Child.bnobj [("Name", "A"), ("Units", "v"), ("DSize", "16")]] :
          Node).get? j = some (Child.bnobj b') →
      ∀ t, t ≠ "Name" → t ≠ "Units" → findtext b' t = findtext b t) :=
  C3_amended_field_scoping false false
    [Child.bnobj [("Name", "A"), ("Units", "u"), ("DSize", "16")]]
    [Child.bnobj [("Name", "A"), ("Units", "v"), ("DSize", "16")]]
    [[("Name", "A"), ("Units", "v")]]
    [("A", "Units", "u", "v")] 0 0 (by decide)

/-- C7 counterexample: with an include-list that omits the key fields and
`allowAdd` on, a second identical run adds a second Record and logs another
change — the Selective Updater is not idempotent for every configuration. -/
theorem C7_counterexample :
    update_from_csv KeyMode.name (some ["Units"]) true false (some [])
        ["Name", "Units"] [[("Name", "A"), ("Units", "u")]]
      = .ok ([Child.bnobj [("Units", "u")]], [("A", "Units", "", "u")],
          1, 0) ∧
    update_from_csv KeyMode.name (some ["Units"]) true false
        (some [Child.bnobj [("Units", "u")]])
        ["Name", "Units"] [[("Name", "A"), ("Units", "u")]]
      = .ok ([Child.bnobj [("Units", "u")], Child.bnobj [("Units", "u")]],
          [("A", "Units", "", "u")], 1, 0) := by
  exact ⟨by decide, by decide⟩

/-- C7 (amended): with `allowAdd` off, the Selective Updater is idempotent:
re-running the same CSV with the same configuration against the first run's
output produces a change log of length 0, adds no Records, leaves the
container unchanged, and reports the same skipped count. -/
theorem C7_amended_idempotent (mode : KeyMode) (incl : Option (List String))
    (ue : Bool) (node node₁ : Node) (header : List String) (rows : List Row)
    (ch : List Change) (ad sk : Nat)
    (h : update_from_csv mode incl false ue (some node) header rows
      = .ok (node₁, ch, ad, sk)) :
    update_from_csv mode incl false ue (some node₁) header rows
      = .ok (node₁, [], 0, sk) :=
  selective_noadd_idem mode incl ue node node₁ header rows ch ad sk h

/-- C7 witness: a concrete second run with zero further changes. -/
theorem C7_witness :
    update_from_csv KeyMode.name none false false
        (some [Child.bnobj [("Name", "A"), ("Units", "v")]])
        ["Name", "Units"] [[("Name", "A"), ("Units", "v")]]
      = .ok ([Child.bnobj [("Name", "A"), ("Units", "v")]], [], 0, 0) :=
  C7_amended_idempotent KeyMode.name none false
    [Child.bnobj [("Name", "A"), ("Units", "u")]]
    [Child.bnobj [("Name", "A"), ("Units", "v")]]
    ["Name", "Units"] [[("Name", "A"), ("Units", "v")]]
    [("A", "Units", "u", "v")] 0 0 (by decide)

/-- C8: rows with an empty derived key are skipped with no Record created or
modified regardless of key mode; with `allowAdd` off a row whose non-empty
key is absent from the index is skipped and creates nothing; and the reported
skipped count is the number of empty-key rows plus the number of not-found
rows, counted in one counter. -/
theorem C8_skipped_accounting (mode : KeyMode) (incl : Option (List String))
    (ue : Bool) (node node' : Node) (header : List String) (rows : List Row)
    (ch : List Change) (ad sk : Nat)
    (h : update_from_csv mode incl false ue (some node) header rows
      = .ok (node', ch, ad, sk)) :
    ad = 0 ∧ node'.length = node.length ∧
    sk = rows.countP (fun r => key_empty (get_row_key mode r))
        + rows.countP (fun r => !key_empty (get_row_key mode r)
            && (dict_get (index_bnobjs node mode)
                  (get_row_key mode r)).isNone) ∧
    (∀ (mode' : KeyMode) (aa' ue' : Bool) (fields' : List String)
        (st : LoopState) (r' : Row),
      key_empty (get_row_key mode' r') = true →
      process_row mode' aa' ue' fields' st r'
        = { st with skipped := st.skipped + 1 }) := by
  obtain ⟨-, -, hout⟩ := update_from_csv_ok h
  simp only [Prod.mk.injEq] at hout
  obtain ⟨hn, -, had, hsk⟩ := hout
  obtain ⟨-, hadded, hlen⟩ := foldl_noadd_frame mode ue
    (fields_to_update incl header) rows
    ⟨node, index_bnobjs node mode, [], 0, 0⟩
  have hskip : (rows.foldl (process_row mode false ue
        (fields_to_update incl header))
        ⟨node, index_bnobjs node mode, [], 0, 0⟩).skipped
      = 0 + rows.countP (fun r => key_empty (get_row_key mode r)
          || (dict_get (index_bnobjs node mode)
                (get_row_key mode r)).isNone) :=
    foldl_noadd_skipped mode ue (fields_to_update incl header) rows
      ⟨node, index_bnobjs node mode, [], 0, 0⟩
  refine ⟨by rw [had, hadded], by rw [hn, hlen], ?_,
    fun mode' aa' ue' fields' st r' hek => process_row_empty_key hek⟩
  rw [hsk, hskip, countP_skip_split]
  omega

/-- C8 witness: one empty-key row and one not-found row give skipped = 2. -/
theorem C8_witness :
    (0 : Nat) = 0 ∧ ([] : Node).length = ([] : Node).length ∧
    (2 : Nat) = [[("Name", "")], [("Name", "A")]].countP
          (fun r => key_empty (get_row_key KeyMode.name r))
        + [[("Name", "")], [("Name", "A")]].countP
          (fun r => !key_empty (get_row_key KeyMode.name r)
            && (dict_get (index_bnobjs [] KeyMode.name)
                  (get_row_key KeyMode.name r)).isNone) ∧
    (∀ (mode' : KeyMode) (aa' ue' : Bool) (fields' : List String)
        (st : LoopState) (r' : Row),
      key_empty (get_row_key mode' r') = true →
      process_row mode' aa' ue' fields' st r'
        = { st with skipped := st.skipped + 1 }) :=
  C8_skipped_accounting KeyMode.name none false [] [] ["Name"]
    [[("Name", "")], [("Name", "A")]] [] 0 2 (by decide)

/-- C9 counterexample: with six offending duplicate keys the remainder count
is 1, yet the raised message contains no character `1` at all — the
truncation indicator is the fixed text `(and more...)` and carries no count
of the remaining keys. -/
theorem C9_counterexample :
    update_from_csv KeyMode.name none false false (some []) ["Name"]
        [[("Name", "a")], [("Name", "a")], [("Name", "b")], [("Name", "b")],
         [("Name", "c")], [("Name", "c")], [("Name", "d")], [("Name", "d")],
         [("Name", "e")], [("Name", "e")], [("Name", "f")], [("Name", "f")]]
      = .error (RunError.validationError
          (dup_message KeyMode.name
            [["a"], ["b"], ["c"], ["d"], ["e"], ["f"]])) ∧
    ([["a"], ["b"], ["c"], ["d"], ["e"], ["f"]] : List Key).length - 5 = 1 ∧
    '1' ∉ (dup_message KeyMode.name
        [["a"], ["b"], ["c"], ["d"], ["e"], ["f"]]).data := by
  exact ⟨by decide, by decide, by decide⟩

/-- C9 (amended): duplicate keys in Selective mode abort the run with a
`ValidationError` whose message includes (the renderings of) up to 5 of the
offending keys and, when more than 5 exist, appends the fixed truncation
marker `(and more...)` — without a count of the remaining keys. -/
theorem C9_amended_message (mode : KeyMode) (incl : Option (List String))
    (aa ue : Bool) (node : Node) (h₀ : String) (hs : List String)
    (rows : List Row)
    (hd : detect_duplicate_keys rows mode ≠ []) :
    update_from_csv mode incl aa ue (some node) (h₀ :: hs) rows
      = .error (RunError.validationError
          (dup_message mode (detect_duplicate_keys rows mode))) ∧
    (∀ k ∈ (detect_duplicate_keys rows mode).take 5,
      str_includes (dup_message mode (detect_duplicate_keys rows mode))
        (repr_key k)) ∧
    (5 < (detect_duplicate_keys rows mode).length →
      str_includes (dup_message mode (detect_duplicate_keys rows mode))
        "(and more...)") := by
  refine ⟨?_, fun k hk => dup_message_includes_key mode _ k hk,
    fun h5 => dup_message_includes_marker mode _ h5⟩
  simp only [update_from_csv,
    if_neg (show ¬(h₀ :: hs : List String) = [] by simp)]
  rw [if_pos hd]

/-- C9 witness: a concrete duplicate-key abort carrying the message. -/
theorem C9_witness :
    update_from_csv KeyMode.name none false false (some [Child.other 1])
        ["Name"] [[("Name", "A")], [("Name", "A")]]
      = .error (RunError.validationError
          (dup_message KeyMode.name (detect_duplicate_keys
            [[("Name", "A")], [("Name", "A")]] KeyMode.name))) ∧
    str_includes (dup_message KeyMode.name (detect_duplicate_keys
        [[("Name", "A")], [("Name", "A")]] KeyMode.name))
      (repr_key ["A"]) := by
  have h := C9_amended_message KeyMode.name none false false [Child.other 1]
    "Name" [] [[("Name", "A")], [("Name", "A")]] (by decide)
  exact ⟨h.1, h.2.1 ["A"] (by decide)⟩

/-- C10: neither pipeline touches anything outside the Container's BNObj
children.  The Selective Updater never removes or reorders a child: every
original non-record child survives at its position, every original record
stays a record at its position, and all appended children are records.  The
Full Replacer removes exactly the direct BNObj children — the remaining
children are the non-BNObj ones in order, followed by one new record per CSV
row. -/
theorem C10_frame :
    (∀ (mode : KeyMode) (incl : Option (List String)) (aa ue : Bool)
        (node : Node) (header : List String) (rows : List Row)
        (node' : Node) (ch : List Change) (ad sk : Nat),
      update_from_csv mode incl aa ue (some node) header rows
        = .ok (node', ch, ad, sk) →
      node.length ≤ node'.length ∧
      (∀ j x, node.get? j = some (Child.other x) →
        node'.get? j = some (Child.other x)) ∧
      (∀ j b, node.get? j = some (Child.bnobj b) →
        ∃ b', node'.get? j = some (Child.bnobj b')) ∧
      (∀ j c, node.length ≤ j → node'.get? j = some c →
        is_bnobj c = true)) ∧
    (∀ (node : Node) (header : List String) (rows : List Row) (we : Bool)
        (node' : Node) (rm adn : Nat),
      replace_bnobj_from_csv (some node) header rows we
        = .ok (node', rm, adn) →
      node' = node.filter (fun c => !is_bnobj c)
          ++ rows.map (fun r => Child.bnobj
              (create_bnobj_from_row header r we))
        ∧ rm = (node.filter is_bnobj).length ∧ adn = rows.length) := by
  constructor
  · intro mode incl aa ue node header rows node' ch ad sk h
    obtain ⟨-, -, hout⟩ := update_from_csv_ok h
    simp only [Prod.mk.injEq] at hout
    obtain ⟨hn, -, -, -⟩ := hout
    have hframe := foldl_frame mode aa ue (fields_to_update incl header) rows
      ⟨node, index_bnobjs node mode, [], 0, 0⟩
      (fun k i hki => (dict_get_index_bnobjs_some hki).imp (fun b hb => hb.1))
    obtain ⟨-, hlen, hother, hbn, hsuf, -⟩ := hframe
    rw [hn]
    exact ⟨hlen, hother, fun j b hb => (hbn j b hb).imp (fun b' h' => h'.1),
      hsuf⟩
  · intro node header rows we node' rm adn h
    cases header with
    | nil => simp [replace_bnobj_from_csv] at h
    | cons h₀ hs =>
        cases rows with
        | nil => simp [replace_bnobj_from_csv] at h
        | cons r rs =>
            simp only [replace_bnobj_from_csv,
              if_neg (show ¬(h₀ :: hs : List String) = [] by simp),
              if_neg (show ¬(r :: rs : List Row) = [] by simp)] at h
            injection h with h'
            simp only [Prod.mk.injEq] at h'
            exact ⟨h'.1.symm, h'.2.1.symm, h'.2.2.symm⟩

/-- C10 witness: concrete frame facts for both pipelines. -/
theorem C10_witness :
    ([Child.other 9] : Node).length
      ≤ ([Child.other 9, Child.bnobj [("Name", "A")]] : Node).length ∧
    (∀ j x, ([Child.other 9] : Node).get? j = some (Child.other x) →
      ([Child.other 9, Child.bnobj [("Name", "A")]] : Node).get? j
        = some (Child.other x)) ∧
    ([Child.other 9, Child.bnobj [("Name", "B")]] : Node).filter
        (fun c => !is_bnobj c)
      ++ [[("Name", "C")]].map (fun r =>
          Child.bnobj (create_bnobj_from_row ["Name"] r true))
      = [Child.other 9, Child.bnobj [("Name", "C")]] := by
  obtain ⟨p1, p2⟩ := C10_frame
  have h1 := p1 KeyMode.name none true false [Child.other 9] ["Name"]
    [[("Name", "A")]] [Child.other 9, Child.bnobj [("Name", "A")]]
    [("A", "Name", "", "A")] 1 0 (by decide)
  have h2 := p2 [Child.other 9, Child.bnobj [("Name", "B")]] ["Name"]
    [[("Name", "C")]] true
    [Child.other 9, Child.bnobj [("Name", "C")]] 1 1 (by decide)
  exact ⟨h1.1, h1.2.1, by rw [← h2.1]⟩

end CsvXml
